import Mathlib

/-!
# Verification of `hertz-contrib/swagger-generate` conversion core

Shallow embedding of the two conversion pipelines of the repository:

* Pipeline A (`swagger2idl`): OpenAPI document → Proto intermediate tree →
  proto3 text.  Embedded from `swagger2idl/converter/converter.go`,
  `swagger2idl/generate/generate.go` and `swagger2idl/utils/utils.go`.
* Pipeline B (`thrift-gen-http-swagger`): Thrift AST → OpenAPI document.
  Embedded from `thrift-gen-http-swagger/generator/openapi_gen.go`.

Go maps are embedded as association lists; the list order plays the role of
the (runtime-chosen) map iteration order, so it is an explicit input of the
model.  Go's mutable state (the converter / generator instance) is passed
explicitly.  Fallible Go functions returning `error` become `Except String`.
-/

namespace SwaggerGen

/-! ## Pipeline A: intermediate Proto tree (`swagger2idl/protobuf/protobuf.go`)

`ProtoField.OneOf`/`Fields`/`Messages`/`Enums` exist in the Go struct but are
never written nor read by the converter or the encoder, so they are omitted
from the embedding. -/

/-- A value carried by a proto option.  In the source `Option.Value` is
`interface{}`; the converter only ever stores strings in it, and the encoder
distinguishes `map[string]interface{}` values (rendered as a nested block)
from everything else (rendered with `%v`, i.e. verbatim for strings). -/
inductive OptionValue where
  | raw (s : String)
  | vmap (entries : List (String × String))
  deriving Repr, DecidableEq

structure ProtoOption where
  name : String
  value : OptionValue
  deriving Repr, DecidableEq

structure ProtoField where
  name : String
  type_ : String
  repeated : Bool := false
  options : List ProtoOption := []
  deriving Repr, DecidableEq

structure ProtoEnum where
  name : String
  values : List (String × Int) := []
  deriving Repr, DecidableEq

/-- `ProtoMessage` is recursive (nested messages), hence an inductive. -/
inductive ProtoMessage where
  | mk (name : String) (fields : List ProtoField)
       (messages : List ProtoMessage) (enums : List ProtoEnum)
       (options : List ProtoOption)
  deriving Repr

def ProtoMessage.name : ProtoMessage → String
  | .mk n _ _ _ _ => n

def ProtoMessage.fields : ProtoMessage → List ProtoField
  | .mk _ f _ _ _ => f

def ProtoMessage.messages : ProtoMessage → List ProtoMessage
  | .mk _ _ m _ _ => m

def ProtoMessage.enums : ProtoMessage → List ProtoEnum
  | .mk _ _ _ e _ => e

def ProtoMessage.options : ProtoMessage → List ProtoOption
  | .mk _ _ _ _ o => o

structure ProtoMethod where
  name : String
  input : String
  output : String
  options : List ProtoOption := []
  deriving Repr, DecidableEq

structure ProtoService where
  name : String
  methods : List ProtoMethod := []
  deriving Repr, DecidableEq

structure ProtoFile where
  packageName : String
  messages : List ProtoMessage := []
  services : List ProtoService := []
  enums : List ProtoEnum := []
  imports : List String := []
  options : List (String × String) := []
  deriving Repr

/-! ## Pipeline A: OpenAPI input model (the `kin-openapi` subset the converter reads)

A Go `openapi3.SchemaRef` carries a `Ref` string and an optional `Value`.
The converter first tests `Ref != ""`, then `Value != nil`; the three
constructors below partition exactly along those tests (`refr` is the
`Ref != ""` case, `noval` is `Ref == "" && Value == nil`). -/

mutual

inductive SchemaRef where
  /-- `Ref != ""` (the `Value`, if any, is never inspected by the converter). -/
  | refr (r : String)
  /-- `Ref == ""` and `Value == nil`. -/
  | noval
  /-- `Ref == ""` and `Value != nil`.  `type_ = none` models `Type == nil`. -/
  | val (type_ : Option (List String)) (format : String)
        (properties : SchemaProps)
        (items : OptSchemaRef)
        (addProps : OptSchemaRef)

/-- The `Properties` map of a schema (name → sub-schema, in map-iteration
order); a bespoke list type so the recursion below is plainly mutual
structural. -/
inductive SchemaProps where
  | nil
  | cons (name : String) (s : SchemaRef) (rest : SchemaProps)

/-- An optional sub-schema (`Items` / `AdditionalProperties.Schema`). -/
inductive OptSchemaRef where
  | none
  | some (s : SchemaRef)

end

/-- View of `SchemaProps` as an association list (used in statements). -/
def SchemaProps.toList : SchemaProps → List (String × SchemaRef)
  | .nil => []
  | .cons n s rest => (n, s) :: rest.toList

/-- Induction principle for `SchemaProps` alone. -/
def SchemaProps.recSelf {motive : SchemaProps → Sort u}
    (h1 : motive .nil)
    (h2 : ∀ n s rest, motive rest → motive (.cons n s rest)) :
    ∀ p, motive p
  | .nil => h1
  | .cons n s rest => h2 n s rest (SchemaProps.recSelf h1 h2 rest)

structure Param where
  name : String
  schema : Option SchemaRef

structure MediaType where
  schema : Option SchemaRef

structure RequestBody where
  content : List (String × MediaType) := []

structure RequestBodyRef where
  ref : String := ""
  value : Option RequestBody := none

structure Header where
  schema : SchemaRef

structure Response where
  headers : List (String × Header) := []
  content : List (String × MediaType) := []

structure ResponseRef where
  ref : String := ""
  value : Option Response := none

structure Operation where
  operationID : String
  tags : List String := []
  parameters : List Param := []
  requestBody : Option RequestBodyRef := none
  responses : Option (List (String × ResponseRef)) := none

/-- An OpenAPI document as the converter consumes it: `components.schemas`
(name → schema, in map-iteration order) and `paths` (path → (HTTP method →
operation), both in map-iteration order). -/
structure OpenAPISpec where
  components : List (String × SchemaRef) := []
  paths : List (String × List (String × Operation)) := []

/-! ## Pipeline A: helpers from `swagger2idl/utils/utils.go` -/

/-- Characters after the last `/` (reversed accumulator scanner). -/
def lastSegmentChars : List Char → List Char → List Char
  | [], acc => acc.reverse
  | c :: rest, acc =>
      if c = '/' then lastSegmentChars rest []
      else lastSegmentChars rest (c :: acc)

/-- `utils.ExtractMessageNameFromRef`: last `/`-separated component. -/
def extractMessageNameFromRef (ref : String) : String :=
  String.mk (lastSegmentChars ref.data [])

/-- `utils.GetServiceName`: first tag, falling back to `DefaultService`. -/
def getServiceName (tags : List String) : String :=
  match tags with
  | t :: _ => t
  | [] => "DefaultService"

/-- Capitalize the first character (ASCII). -/
def capitalizeFirst (s : String) : String :=
  match s.data with
  | [] => s
  | c :: cs => String.mk (c.toUpper :: cs)

/-- `utils.GenerateMethodName`: the operationId when present, otherwise
`strings.Title(strings.ToLower(method)) + "Method"`. -/
def generateMethodName (operationID method : String) : String :=
  if operationID ≠ "" then operationID
  else capitalizeFirst method.toLower ++ "Method"

def isWordChar (c : Char) : Bool :=
  c.isAlphanum || c = '_'

/-- `utils.ConvertPath`: rewrite every `{word}` path parameter to `:word`
(the source uses the regexp `\{(\w+)\}` with `ReplaceAllString ":$1"`).
Embedded as a left-to-right scanner: the second argument is `some acc`
(reversed word characters read so far) while inside a candidate `{word}`
group, `none` otherwise.  A failed candidate is re-emitted verbatim, and a
`{` that makes a candidate fail starts a fresh candidate, exactly as the
regexp engine rescans from the next position. -/
def convertPathChars : List Char → Option (List Char) → List Char
  | [], none => []
  | [], some acc => '{' :: acc.reverse
  | c :: rest, none =>
      if c = '{' then convertPathChars rest (some [])
      else c :: convertPathChars rest none
  | c :: rest, some acc =>
      if c = '}' then
        (if acc ≠ [] then ':' :: acc.reverse else ['{', '}']) ++
          convertPathChars rest none
      else if isWordChar c then convertPathChars rest (some (c :: acc))
      else
        '{' :: acc.reverse ++
          (if c = '{' then convertPathChars rest (some [])
           else c :: convertPathChars rest none)

def convertPath (path : String) : String :=
  String.mk (convertPathChars path.data none)

/-- `utils.SanitizeName` (`strcase.ToCamel`, external library): drop
non-alphanumeric separators and capitalize the letter that follows one. -/
def toCamelChars : List Char → Bool → List Char
  | [], _ => []
  | c :: rest, capNext =>
      if c.isAlphanum then
        (if capNext then c.toUpper else c) :: toCamelChars rest false
      else
        toCamelChars rest true

def sanitizeName (name : String) : String :=
  String.mk (toCamelChars name.data true)

/-! ## Pipeline A: the converter (`swagger2idl/converter/converter.go`) -/

def apiProtoFile : String := "api.proto"
def openapiProtoFile : String := "openapi.proto"
def emptyProtoFile : String := "google.protobuf.empty"

/-- The mutable `ProtoConverter` instance (its `ProtoFile` plus the two
conversion options fixed by `NewProtoConverter`). -/
structure Converter where
  protoFile : ProtoFile
  openapiOption : Bool
  apiOption : Bool

def newProtoConverter (packageName : String) : Converter :=
  { protoFile := { packageName }
    openapiOption := false
    apiOption := true }

/-- `AddProtoImport`: skip the import if already present, else append. -/
def addProtoImport (c : Converter) (importFile : String) : Converter :=
  if importFile ∈ c.protoFile.imports then c
  else { c with protoFile.imports := c.protoFile.imports ++ [importFile] }

/-- `addFieldIfNotExists`: append unless a field of the same name exists. -/
def addFieldIfNotExists (fields : List ProtoField) (f : ProtoField) :
    List ProtoField :=
  if fields.any (fun ef => ef.name = f.name) then fields else fields ++ [f]

/-- `addMessageIfNotExists`: append unless a message of the same name exists. -/
def addMessageIfNotExists (msgs : List ProtoMessage) (m : ProtoMessage) :
    List ProtoMessage :=
  if msgs.any (fun em => em.name = m.name) then msgs else msgs ++ [m]

/-- The merge half of `addMessageToProto`: the new message's fields,
nested messages, enums and options are appended to the existing ones, but
only those whose name is not already taken by an *existing* entry (the
source snapshots the existing names before the loop, so it keeps the
first-seen entry and never overwrites). -/
def mergeMessages (em m : ProtoMessage) : ProtoMessage :=
  .mk em.name
    (em.fields ++ m.fields.filter
      (fun f => ¬ em.fields.any (fun ef => ef.name = f.name)))
    (em.messages ++ m.messages.filter
      (fun n => ¬ em.messages.any (fun en => en.name = n.name)))
    (em.enums ++ m.enums.filter
      (fun e => ¬ em.enums.any (fun ee => ee.name = e.name)))
    (em.options ++ m.options.filter
      (fun o => ¬ em.options.any (fun eo => eo.name = o.name)))

/-- Merge `m` into the first same-named message of the list. -/
def mergeIntoFirst : List ProtoMessage → ProtoMessage → List ProtoMessage
  | [], _ => []
  | em :: rest, m =>
      if em.name = m.name then mergeMessages em m :: rest
      else em :: mergeIntoFirst rest m

/-- `addMessageToProto`: merge into an existing same-named message of the
`ProtoFile`, else append (the Go function always returns a nil error). -/
def addMessageToProto (c : Converter) (m : ProtoMessage) : Converter :=
  if c.protoFile.messages.any (fun em => em.name = m.name) then
    { c with protoFile.messages := mergeIntoFirst c.protoFile.messages m }
  else
    { c with protoFile.messages := c.protoFile.messages ++ [m] }

/-- Result of `ConvertSchemaToProtoFieldOrMessage`.  The Go function returns
an `interface{}` that is a `*ProtoField`, a `*ProtoMessage` or nil
(`result`), and has two side effects on its arguments that the pure
embedding returns explicitly: messages appended to the *parent* message
(`addNestedMessageToParent`, the array-item case) and imports registered on
the converter (`AddProtoImport`, the date/date-time case), in execution
order. -/
structure ConvOut where
  result : Option (ProtoField ⊕ ProtoMessage)
  parentAdds : List ProtoMessage := []
  imports : List String := []

mutual

/-- `ConvertSchemaToProtoFieldOrMessage` (pure core, see `ConvOut`). -/
def convertSchema : SchemaRef → String → Except String ConvOut
  | .refr r, _ =>
      .ok { result := some (.inl { name := extractMessageNameFromRef r,
                                   type_ := extractMessageNameFromRef r }) }
  | .noval, _ => .ok { result := none }
  | .val none _ _ _ _, _ => .error "schema type is required"
  | .val (some types) format props items addProps, protoName =>
      if types.contains "string" then
        if format = "date" ∨ format = "date-time" then
          .ok { result := some (.inl { name := protoName,
                                       type_ := "google.protobuf.Timestamp" }),
                imports := ["google/protobuf/timestamp.proto"] }
        else .ok { result := some (.inl { name := protoName, type_ := "string" }) }
      else if types.contains "integer" then
        .ok { result := some (.inl
          { name := protoName,
            type_ := (if format = "int32" then "int32" else "int64") }) }
      else if types.contains "number" then
        .ok { result := some (.inl
          { name := protoName,
            type_ := (if format = "float" then "float" else "double") }) }
      else if types.contains "boolean" then
        .ok { result := some (.inl { name := protoName, type_ := "bool" }) }
      else if types.contains "array" then convertArraySchema items protoName
      else if types.contains "object" then do
        let (fields, nested, imps) ← convertProps props
        convertAddProps addProps protoName fields nested imps
      else
        .ok { result := some (.inl { name := protoName, type_ := "" }) }

/-- The array branch: convert `Items` under `<name>Item`; a field item gives
a `repeated` field of its type; a message item is appended to the parent and
referenced by name; a nil item result (and a nil `Items`) falls through to
the source's final `return` with `protoType` never assigned (type `""`). -/
def convertArraySchema : OptSchemaRef → String → Except String ConvOut
  | .some itemSchema, protoName => do
      let out ← convertSchema itemSchema (protoName ++ "Item")
      match out.result with
      | some (.inl f) =>
          .ok { result := some (.inl { name := protoName, type_ := f.type_,
                                       repeated := true }),
                parentAdds := out.parentAdds, imports := out.imports }
      | some (.inr nested) =>
          .ok { result := some (.inl { name := protoName,
                                       type_ := nested.name,
                                       repeated := true }),
                parentAdds := out.parentAdds ++ [nested],
                imports := out.imports }
      | none =>
          .ok { result := some (.inl { name := protoName, type_ := "" }),
                parentAdds := out.parentAdds, imports := out.imports }
  | .none, protoName =>
      .ok { result := some (.inl { name := protoName, type_ := "" }) }

/-- The tail of the object branch: the `AdditionalProperties` schema is
converted under `<name>AdditionalProperties` against the *outer* parent (its
parent appends propagate outward), its result message is dropped (only its
name is used as the map value type, else `string`), and a synthetic
`map<string, V>` field named `additionalProperties` is appended. -/
def convertAddProps : OptSchemaRef → String → List ProtoField →
    List ProtoMessage → List String → Except String ConvOut
  | .some apSchema, protoName, fields, nested, imps => do
      let apOut ← convertSchema apSchema (protoName ++ "AdditionalProperties")
      let mapValueType :=
        match apOut.result with
        | some (.inr m) => m.name
        | _ => "string"
      .ok { result := some (.inr (.mk protoName
              (fields ++ [{ name := "additionalProperties",
                            type_ := "map<string, " ++ mapValueType ++ ">" }])
              nested [] [])),
            parentAdds := apOut.parentAdds,
            imports := imps ++ apOut.imports }
  | .none, protoName, fields, nested, imps =>
      .ok { result := some (.inr (.mk protoName fields nested [] [])),
            imports := imps }

/-- The property loop of the object case: returns the accumulated fields,
nested messages (parent appends interleaved with nested results, in the
source's append order) and imports. -/
def convertProps : SchemaProps →
    Except String (List ProtoField × List ProtoMessage × List String)
  | .nil => .ok ([], [], [])
  | .cons propName propSchema rest => do
      let out ← convertSchema propSchema propName
      let (fs, ms, imps) ← convertProps rest
      match out.result with
      | some (.inl f) =>
          .ok (f :: fs, out.parentAdds ++ ms, out.imports ++ imps)
      | some (.inr nested) =>
          .ok ({ name := propName ++ "Field", type_ := nested.name } :: fs,
               out.parentAdds ++ [nested] ++ ms, out.imports ++ imps)
      | none => .ok (fs, out.parentAdds ++ ms, out.imports ++ imps)

end

/-- Unfolding equation for the `.val (some types)` arm of `convertSchema`
(holds by iota-reduction of the structural recursion). -/
theorem convertSchema_val_eq (types : List String) (format : String)
    (props : SchemaProps) (items addProps : OptSchemaRef)
    (protoName : String) :
    convertSchema (.val (some types) format props items addProps) protoName =
      (if types.contains "string" then
        if format = "date" ∨ format = "date-time" then
          .ok { result := some (.inl { name := protoName,
                                       type_ := "google.protobuf.Timestamp" }),
                imports := ["google/protobuf/timestamp.proto"] }
        else .ok { result := some (.inl { name := protoName, type_ := "string" }) }
      else if types.contains "integer" then
        .ok { result := some (.inl
          { name := protoName,
            type_ := (if format = "int32" then "int32" else "int64") }) }
      else if types.contains "number" then
        .ok { result := some (.inl
          { name := protoName,
            type_ := (if format = "float" then "float" else "double") }) }
      else if types.contains "boolean" then
        .ok { result := some (.inl { name := protoName, type_ := "bool" }) }
      else if types.contains "array" then convertArraySchema items protoName
      else if types.contains "object" then do
        let (fields, nested, imps) ← convertProps props
        convertAddProps addProps protoName fields nested imps
      else
        .ok { result := some (.inl { name := protoName, type_ := "" }) }) := rfl

/-- Wrap an error message like `fmt.Errorf("<prefix>: %w", err)`. -/
def wrapErr (prefix_ : String) : Except String α → Except String α
  | .ok a => .ok a
  | .error e => .error (prefix_ ++ ": " ++ e)

def ProtoMessage.updFM (m : ProtoMessage) (fs : List ProtoField)
    (ms : List ProtoMessage) : ProtoMessage :=
  .mk m.name fs ms m.enums m.options

/-- Apply one `ConvertSchemaToProtoFieldOrMessage` call's outcome to the
converter and the message under construction, the way `generateRequestMessage`
and `processSingleResponse` do: the imports and parent appends happen during
the call, then the type switch runs `addFieldIfNotExists` /
`addMessageIfNotExists` (a nil result adds nothing). -/
def applyConvOutDedup (c : Converter) (msg : ProtoMessage) (out : ConvOut) :
    Converter × ProtoMessage :=
  let c' := out.imports.foldl addProtoImport c
  let ms := msg.messages ++ out.parentAdds
  match out.result with
  | some (.inl f) => (c', msg.updFM (addFieldIfNotExists msg.fields f) ms)
  | some (.inr m) => (c', msg.updFM msg.fields (addMessageIfNotExists ms m))
  | none => (c', msg.updFM msg.fields ms)

/-- The request-body media-type loop of `generateRequestMessage`: each
media type with a schema is converted under
`SanitizeName(messageName + mediaTypeStr)`. -/
def convertMediaEntries (messageName : String) (c : Converter)
    (msg : ProtoMessage) :
    List (String × MediaType) → Except String (Converter × ProtoMessage)
  | [] => .ok (c, msg)
  | (mt, media) :: rest =>
      match media.schema with
      | some sr => do
          let out ← convertSchema sr (sanitizeName (messageName ++ mt))
          let (c', msg') := applyConvOutDedup c msg out
          convertMediaEntries messageName c' msg' rest
      | none => convertMediaEntries messageName c msg rest

/-- The parameter loop of `generateRequestMessage`: each parameter with a
schema is converted under the parameter's own name. -/
def convertParams (c : Converter) (msg : ProtoMessage) :
    List Param → Except String (Converter × ProtoMessage)
  | [] => .ok (c, msg)
  | p :: rest =>
      match p.schema with
      | some sr => do
          let out ← convertSchema sr p.name
          let (c', msg') := applyConvOutDedup c msg out
          convertParams c' msg' rest
      | none => convertParams c msg rest

/-- Shared tail of `generateRequestMessage`: run the parameter loop, then
either register the assembled message and return its name, or (no fields and
no nested messages) discard it and return `""` with a nil error. -/
def finishRequest (c : Converter) (msg : ProtoMessage) (op : Operation) :
    Except String (Converter × String) := do
  let (c2, m2) ← convertParams c msg op.parameters
  if m2.fields.isEmpty && m2.messages.isEmpty then .ok (c2, "")
  else .ok (addMessageToProto c2 m2, m2.name)

/-- `generateRequestMessage`. -/
def generateRequestMessage (c : Converter) (op : Operation) :
    Except String (Converter × String) :=
  let messageName := op.operationID ++ "Request"
  let message0 : ProtoMessage := .mk messageName [] [] [] []
  if op.requestBody.isNone && op.parameters.isEmpty then
    .ok (addProtoImport c emptyProtoFile, emptyProtoFile)
  else
    match op.requestBody with
    | some rb =>
        if rb.ref ≠ "" then .ok (c, extractMessageNameFromRef rb.ref)
        else do
          let (c1, m1) ←
            (match rb.value with
             | some body => convertMediaEntries messageName c message0 body.content
             | none => .ok (c, message0))
          finishRequest c1 m1 op
    | none => finishRequest c message0 op

/-- The header loop of `processSingleResponse`. -/
def convertHeaders (c : Converter) (msg : ProtoMessage) :
    List (String × Header) → Except String (Converter × ProtoMessage)
  | [] => .ok (c, msg)
  | (headerName, header) :: rest => do
      let out ← convertSchema header.schema headerName
      let (c', msg') := applyConvOutDedup c msg out
      convertHeaders c' msg' rest

/-- The response-content loop of `processSingleResponse`: the conversion is
invoked under the *raw* media-type string (no sanitizing here). -/
def convertRespContent (c : Converter) (msg : ProtoMessage) :
    List (String × MediaType) → Except String (Converter × ProtoMessage)
  | [] => .ok (c, msg)
  | (mt, media) :: rest =>
      match media.schema with
      | some sr => do
          let out ← convertSchema sr mt
          let (c', msg') := applyConvOutDedup c msg out
          convertRespContent c' msg' rest
      | none => convertRespContent c msg rest

/-- `processSingleResponse`.  On a `$ref` response the referenced name is
returned directly; otherwise a `<operationID>Response_<statusCode>` message
is assembled from the response headers and content, registered if non-empty,
and `""` returned otherwise.  (When `ref == ""` and `value == nil` the Go
code dereferences a nil pointer; that state is unreachable from the
function's call sites, which filter content-less responses first.) -/
def processSingleResponse (c : Converter) (statusCode : String)
    (rref : ResponseRef) (op : Operation) : Except String (Converter × String) :=
  if rref.ref ≠ "" then .ok (c, extractMessageNameFromRef rref.ref)
  else
    match rref.value with
    | none => .error "nil response dereferenced"
    | some response => do
        let messageName := op.operationID ++ "Response_" ++ statusCode
        let newMessage : ProtoMessage := .mk messageName [] [] [] []
        let (c1, m1) ← convertHeaders c newMessage response.headers
        let (c2, m2) ← convertRespContent c1 m1 response.content
        if m2.fields.isEmpty && m2.messages.isEmpty then .ok (c2, "")
        else .ok (addMessageToProto c2 m2, m2.name)

/-- `responseRef.Ref == "" && (responseRef.Value == nil ||
len(responseRef.Value.Content) == 0)`: a content-less response. -/
def contentless (rref : ResponseRef) : Bool :=
  rref.ref = "" &&
    (match rref.value with
     | none => true
     | some r => r.content.isEmpty)

/-- The multiple-responses loop of `generateResponseMessage`: scans the
responses in iteration order, *breaking* at the first content-less one;
every response processed before that point clears `emptyFlag` and appends a
`response_<statusCode>` field typed with `processSingleResponse`'s result. -/
def wrapperLoop (op : Operation) (c : Converter) (wrapper : ProtoMessage)
    (emptyFlag : Bool) :
    List (String × ResponseRef) → Except String (Converter × ProtoMessage × Bool)
  | [] => .ok (c, wrapper, emptyFlag)
  | (statusCode, rref) :: rest =>
      if contentless rref then .ok (c, wrapper, emptyFlag)
      else do
        let (c1, messageName) ← processSingleResponse c statusCode rref op
        let wrapper' := wrapper.updFM
          (wrapper.fields ++ [{ name := "response_" ++ statusCode,
                                type_ := messageName }])
          wrapper.messages
        wrapperLoop op c1 wrapper' false rest

/-- `generateResponseMessage`. -/
def generateResponseMessage (c : Converter) (op : Operation) :
    Except String (Converter × String) :=
  match op.responses with
  | none => .ok (c, "")
  | some responses =>
      if responses.length = 1 then
        match responses with
        | (statusCode, rref) :: _ =>
            if contentless rref then
              .ok (addProtoImport c emptyProtoFile, emptyProtoFile)
            else processSingleResponse c statusCode rref op
        | [] => .ok (c, "")
      else do
        let wrapperMessageName := op.operationID
        let wrapper0 : ProtoMessage := .mk wrapperMessageName [] [] [] []
        let (c1, wrapper, emptyFlag) ← wrapperLoop op c wrapper0 true responses
        if emptyFlag then
          .ok (addProtoImport c1 emptyProtoFile, emptyProtoFile)
        else
          .ok (addMessageToProto c1 wrapper, wrapperMessageName)

/-- The `methodToOption` table of `ConvertPathsToProtoServices`. -/
def methodToOption : String → Option String
  | "GET" => some "api.get"
  | "POST" => some "api.post"
  | "PUT" => some "api.put"
  | "PATCH" => some "api.patch"
  | "DELETE" => some "api.delete"
  | _ => none

/-- `findOrCreateService` (creation half): append an empty service if the
name is absent. -/
def ensureService (services : List ProtoService) (name : String) :
    List ProtoService :=
  if services.any (fun s => s.name = name) then services
  else services ++ [{ name := name }]

/-- Update the first service with the given name. -/
def updateFirstService : List ProtoService → String →
    (ProtoService → ProtoService) → List ProtoService
  | [], _, _ => []
  | s :: rest, n, f =>
      if s.name = n then f s :: rest else s :: updateFirstService rest n f

def methodExistsInService (s : ProtoService) (methodName : String) : Bool :=
  s.methods.any (fun m => m.name = methodName)

/-- Go `fmt.Sprintf("%q", s)` (no escaping modelled: the embedded strings
contain no characters needing escapes). -/
def quoteGo (s : String) : String := "\"" ++ s ++ "\""

/-- The per-operation body of `ConvertPathsToProtoServices`.  `stp`
abstracts `utils.StructToProtobuf` (a reflection-driven pretty-printer, only
reachable when `openapiOption` is set, which `NewProtoConverter` never
sets). -/
def convertOperations (stp : Operation → String) (path : String) :
    Converter → List ProtoService → List (String × Operation) →
    Except String (Converter × List ProtoService)
  | c, services, [] => .ok (c, services)
  | c, services, (method, op) :: rest => do
      let serviceName := getServiceName op.tags
      let methodName := generateMethodName op.operationID method
      let (c1, inputMessage) ←
        wrapErr ("error generating request message for " ++ methodName)
          (generateRequestMessage c op)
      let (c2, outputMessage) ←
        wrapErr ("error generating response message for " ++ methodName)
          (generateResponseMessage c1 op)
      let services1 := ensureService services serviceName
      let services2 :=
        updateFirstService services1 serviceName (fun s =>
          if methodExistsInService s methodName then s
          else
            let apiOpts : List ProtoOption :=
              if c.apiOption then
                match methodToOption method with
                | some optionName =>
                    [{ name := optionName, value := .raw (quoteGo (convertPath path)) }]
                | none => []
              else []
            let openapiOpts : List ProtoOption :=
              if c.openapiOption then
                [{ name := "openapi.operation", value := .raw (stp op) }]
              else []
            { s with methods := s.methods ++
                [{ name := methodName, input := inputMessage,
                   output := outputMessage, options := apiOpts ++ openapiOpts }] })
      convertOperations stp path c2 services2 rest

/-- The path loop of `ConvertPathsToProtoServices`. -/
def convertPathsLoop (stp : Operation → String) :
    Converter → List ProtoService →
    List (String × List (String × Operation)) →
    Except String (Converter × List ProtoService)
  | c, services, [] => .ok (c, services)
  | c, services, (path, ops) :: rest => do
      let (c1, services1) ← convertOperations stp path c services ops
      convertPathsLoop stp c1 services1 rest

/-- `ConvertPathsToProtoServices` (services start empty). -/
def convertPathsToProtoServices (stp : Operation → String) (c : Converter)
    (paths : List (String × List (String × Operation))) :
    Except String (Converter × List ProtoService) :=
  convertPathsLoop stp c [] paths

/-- The private `convertPathsToProtoServices` wrapper: appends the built
services to the `ProtoFile`. -/
def convertPathsToProtoServicesState (stp : Operation → String)
    (c : Converter) (paths : List (String × List (String × Operation))) :
    Except String Converter := do
  let (c1, services) ←
    wrapErr "error converting paths to proto services"
      (convertPathsToProtoServices stp c paths)
  .ok { c1 with protoFile.services := c1.protoFile.services ++ services }

/-- The component loop of `convertComponentsToProtoMessages`: each schema of
`components.schemas` is converted under its component name with a nil
parent (so parent appends are dropped), and the result is merged into the
file by `addMessageToProto` — a field result is wrapped into a one-field
message of the component's name. -/
def convertComponentsLoop :
    Converter → List (String × SchemaRef) → Except String Converter
  | c, [] => .ok c
  | c, (name, sr) :: rest => do
      let out ←
        wrapErr ("error converting schema " ++ name) (convertSchema sr name)
      let c1 := out.imports.foldl addProtoImport c
      let c2 :=
        match out.result with
        | some (.inl f) => addMessageToProto c1 (.mk name [f] [] [] [])
        | some (.inr m) => addMessageToProto c1 m
        | none => c1
      convertComponentsLoop c2 rest

/-- `Convert`: components, then paths, then the option-driven imports
(`NewProtoConverter` enables only `apiOption`). -/
def Convert (stp : Operation → String) (c : Converter) (spec : OpenAPISpec) :
    Except String Converter := do
  let c1 ←
    wrapErr "error converting components to proto messages"
      (convertComponentsLoop c spec.components)
  let c2 ← convertPathsToProtoServicesState stp c1 spec.paths
  let c3 := if c2.openapiOption then addProtoImport c2 openapiProtoFile else c2
  let c4 := if c3.apiOption then addProtoImport c3 apiProtoFile else c3
  .ok c4

/-! ## Pipeline A: the encoder (`swagger2idl/generate/generate.go`)

`sort.Slice(xs, func(i, j) { xs[i].Name < xs[j].Name })` is embedded as an
insertion sort on a string key.  Go's sort is unstable, so the order of
same-keyed elements is unspecified there; the insertion sort fixes one
order, which matters only for inputs with duplicate names. -/

def insertByKey (key : α → String) (x : α) : List α → List α
  | [] => [x]
  | y :: ys =>
      if (key x).data ≤ (key y).data then x :: y :: ys
      else y :: insertByKey key x ys

def sortByKey (key : α → String) (l : List α) : List α :=
  l.foldr (insertByKey key) []

/-- `utils.Stringify` restricted to the string case (the only value kind the
file-level option map and the embedded map-option entries carry):
`fmt.Sprintf("%q", v)`. -/
def stringify (v : String) : String := quoteGo v

/-- `encodeFieldOptionMap`: sorted keys, each rendered as
`<indent spaces><key>: <Stringify value>;\n`. -/
def encodeFieldOptionMap (entries : List (String × String)) (indent : Nat) :
    String :=
  let sorted := sortByKey Prod.fst entries
  let indentSpace := String.mk (List.replicate indent ' ')
  String.join (sorted.map (fun kv =>
    indentSpace ++ kv.1 ++ ": " ++ stringify kv.2 ++ ";\n"))

/-- `encodeFieldOption`: `(name) = value`, where a map value becomes a
nested block and any other value is printed verbatim (`%v`). -/
def encodeFieldOption (opt : ProtoOption) : String :=
  "(" ++ opt.name ++ ") = " ++
    match opt.value with
    | .raw s => s
    | .vmap entries => "\x7b\n" ++ encodeFieldOptionMap entries 6 ++ "    \x7d"

/-- The field loop of `encodeMessage`: fields already sorted, numbered
`i + 1` from `i = 0`. -/
def encodeFieldsFrom (indent : String) :
    List ProtoField → Nat → String
  | [], _ => ""
  | f :: rest, i =>
      indent ++ "  " ++ (if f.repeated then "repeated " else "") ++
        f.type_ ++ " " ++ f.name ++ " = " ++ toString (i + 1) ++
        (if f.options.isEmpty then ""
         else " [\n    " ++
           String.intercalate ", " (f.options.map encodeFieldOption) ++ "]") ++
        ";\n" ++
        encodeFieldsFrom indent rest (i + 1)

mutual

/-- `encodeMessage`: message header, message-level options, fields sorted by
name and numbered from 1, nested messages at one deeper indent level. -/
def encodeMessage : ProtoMessage → Nat → String
  | .mk name fields messages enums options, indentLevel =>
      let _ := enums
      let indent := String.join (List.replicate indentLevel "  ")
      indent ++ "message " ++ name ++ " \x7b\n" ++
        (if options.isEmpty then ""
         else indent ++ "  option" ++
           String.join (options.map (fun o => encodeFieldOption o ++ ";\n"))) ++
        encodeFieldsFrom indent (sortByKey ProtoField.name fields) 0 ++
        encodeMessagesList messages (indentLevel + 1) ++
        indent ++ "\x7d\n\n"

def encodeMessagesList : List ProtoMessage → Nat → String
  | [], _ => ""
  | m :: rest, lvl => encodeMessage m lvl ++ encodeMessagesList rest lvl

end

/-- One `rpc` line of a service, with its option block. -/
def encodeMethod (m : ProtoMethod) : String :=
  "  rpc " ++ m.name ++ "(" ++ m.input ++ ") returns (" ++ m.output ++ ")" ++
    (if m.options.isEmpty then ";\n"
     else " \x7b\n" ++
       String.join (m.options.map (fun o =>
         "     option " ++ encodeFieldOption o ++ ";\n")) ++
       "  \x7d\n")

/-- One service block (methods sorted by name). -/
def encodeService (s : ProtoService) : String :=
  "service " ++ s.name ++ " \x7b\n" ++
    String.join ((sortByKey ProtoMethod.name s.methods).map encodeMethod) ++
    "\x7d\n\n"

/-- `ConvertToProtoFile`: syntax line, package, imports in list order,
file-level options, messages sorted by name, services sorted by name. -/
def ConvertToProtoFile (protoFile : ProtoFile) : String :=
  "syntax = \"proto3\";\n\n" ++
    "package " ++ protoFile.packageName ++ ";\n\n" ++
    String.join (protoFile.imports.map (fun i => "import \"" ++ i ++ "\";\n")) ++
    (if protoFile.imports.isEmpty then "" else "\n") ++
    String.join (protoFile.options.map (fun kv =>
      "option " ++ kv.1 ++ " = " ++ stringify kv.2 ++ ";\n")) ++
    (if protoFile.options.isEmpty then "" else "\n") ++
    encodeMessagesList (sortByKey ProtoMessage.name protoFile.messages) 0 ++
    String.join ((sortByKey ProtoService.name protoFile.services).map encodeService)

/-- The whole pipeline as `swagger2idl/main.go` runs it: build a converter
from the package name, `Convert`, then render (`stp` abstracts
`utils.StructToProtobuf`, unreachable with `NewProtoConverter`'s options). -/
def pipelineA (stp : Operation → String) (packageName : String)
    (spec : OpenAPISpec) : Except String String := do
  let c ← Convert stp (newProtoConverter packageName) spec
  .ok (ConvertToProtoFile c.protoFile)

/-! ## Pipeline B: Thrift AST / reflection model (`thrift-gen-http-swagger`)

The generator walks `thrift_reflection` descriptors.  Descriptor comments
are stored already run through `filterCommentString` (that function is a
regexp-based comment extractor, pure string formatting orthogonal to every
claim).  The annotation-payload parsers `utils.ParseFieldOption` /
`ParseStructOption` and the reflective `common.MergeStructs` live in
packages of this repository that are not part of the sources at hand, so
parsed options are carried as precomputed fields of the descriptors and the
merge is modelled from the spec. -/

/-- A resolved Thrift type descriptor (base/typedef names, containers,
struct references). -/
inductive TType where
  | base (name : String)
  | tlist (elem : TType)
  | tmap (key value : TType)
  | tstruct (name : String)
  deriving Repr

mutual

/-- `openapi.Schema` (the subset the generator reads and writes). -/
inductive OASchema where
  | mk (type_ : String) (format : String) (description : String)
       (required : List String)
       (properties : List (String × OASchemaOrRef))
       (additionalProperties : Option OASchemaOrRef)
       (items : List (Option OASchemaOrRef))
  deriving Repr

/-- `openapi.SchemaOrReference`. -/
inductive OASchemaOrRef where
  | sref (xref : String)
  | sch (s : OASchema)
  deriving Repr

end

def OASchema.type_ : OASchema → String
  | .mk t _ _ _ _ _ _ => t

def OASchema.format : OASchema → String
  | .mk _ f _ _ _ _ _ => f

def OASchema.description : OASchema → String
  | .mk _ _ d _ _ _ _ => d

def OASchema.required : OASchema → List String
  | .mk _ _ _ r _ _ _ => r

def OASchema.properties : OASchema → List (String × OASchemaOrRef)
  | .mk _ _ _ _ p _ _ => p

def OASchema.additionalProperties : OASchema → Option OASchemaOrRef
  | .mk _ _ _ _ _ a _ => a

def OASchema.items : OASchema → List (Option OASchemaOrRef)
  | .mk _ _ _ _ _ _ i => i

def OASchema.setDescription (s : OASchema) (d : String) : OASchema :=
  .mk s.type_ s.format d s.required s.properties s.additionalProperties s.items

def OASchema.setRequired (s : OASchema) (r : List String) : OASchema :=
  .mk s.type_ s.format s.description r s.properties s.additionalProperties s.items

/-- Modelled from the spec: `common.MergeStructs(dst, src)` (package
`common/utils`, not among the sources) merges the annotation-derived schema
`src` onto the auto-derived `dst`; explicit (non-zero) annotation values win
field by field, auto-derived values fill the gaps. -/
def mergeSchema (dst src : OASchema) : OASchema :=
  .mk (if src.type_ ≠ "" then src.type_ else dst.type_)
      (if src.format ≠ "" then src.format else dst.format)
      (if src.description ≠ "" then src.description else dst.description)
      (if src.required ≠ [] then src.required else dst.required)
      (if src.properties.isEmpty then dst.properties else src.properties)
      (src.additionalProperties.orElse (fun _ => dst.additionalProperties))
      (if src.items.isEmpty then dst.items else src.items)

/-- `openapi.Parameter` (also the shape of a parsed `openapi.parameter`
annotation payload). -/
structure OAParameter where
  name : String := ""
  in_ : String := ""
  description : String := ""
  required : Bool := false
  schema : Option OASchemaOrRef := none
  deriving Repr

/-- Modelled from the spec: `common.MergeStructs` on parameters — explicit
(non-zero) annotation values win field by field. -/
def mergeParameter (dst src : OAParameter) : OAParameter :=
  { name := if src.name ≠ "" then src.name else dst.name
    in_ := if src.in_ ≠ "" then src.in_ else dst.in_
    description := if src.description ≠ "" then src.description else dst.description
    required := if src.required then src.required else dst.required
    schema := src.schema.orElse (fun _ => dst.schema) }

/-- A Thrift field descriptor.  `comments` is the already-filtered comment;
`propertyAnn` / `parameterAnn` are the pre-parsed `openapi.property` /
`openapi.parameter` payloads (see the section comment). -/
structure FieldDesc where
  name : String
  type_ : TType
  annotations : List (String × List String) := []
  comments : String := ""
  propertyAnn : Option OASchema := none
  parameterAnn : Option OAParameter := none
  deriving Repr

/-- A Thrift struct descriptor (`schemaAnn` is the pre-parsed
`openapi.schema` payload). -/
structure StructDesc where
  name : String
  fields : List FieldDesc := []
  comments : String := ""
  schemaAnn : Option OASchema := none
  deriving Repr

/-- The file descriptor: the structs of the file (no `include`d files are
modelled; the include-resolution fallback of the source then finds
nothing). -/
structure FileDesc where
  structs : List StructDesc := []
  deriving Repr

def FileDesc.lookup (fd : FileDesc) (name : String) : Option StructDesc :=
  fd.structs.find? (fun s => s.name = name)

/-- Go `v.Annotations[key]` (nil → `[]`). -/
def lookupAnn (anns : List (String × List String)) (key : String) :
    List String :=
  match anns.find? (fun kv => kv.1 = key) with
  | some kv => kv.2
  | none => []

/-- Whether `v.Annotations[key] != nil` (present at all). -/
def hasAnn (anns : List (String × List String)) (key : String) : Bool :=
  anns.any (fun kv => kv.1 = key)

/-- The generator's mutable expansion state (`generatedSchemas`,
`requiredSchemas`). -/
structure GenState where
  requiredSchemas : List String := []
  generatedSchemas : List String := []
  deriving Repr

/-- `components.schemas` of the OpenAPI document under construction (the
only document part the struct-expansion code writes). -/
structure OADocument where
  schemas : List (String × OASchemaOrRef) := []
  deriving Repr

/-- `schemaReferenceForMessage`: register the struct name as required
(`AppendUnique` behaviour) and return its `#/components/schemas/` xref. -/
def schemaReferenceForMessage (st : GenState) (structName : String) :
    GenState × String :=
  let st' :=
    if st.requiredSchemas.contains structName then st
    else { st with requiredSchemas := st.requiredSchemas ++ [structName] }
  (st', "#/components/schemas/" ++ structName)

def emptyOASchema : OASchema := .mk "" "" "" [] [] none []

def baseTypeSchema (name : String) : OASchema :=
  match name with
  | "string" => .mk "string" "" "" [] [] none []
  | "binary" => .mk "string" "binary" "" [] [] none []
  | "bool" => .mk "boolean" "" "" [] [] none []
  | "byte" => .mk "string" "byte" "" [] [] none []
  | "double" => .mk "number" "double" "" [] [] none []
  | "i8" => .mk "integer" "int8" "" [] [] none []
  | "i16" => .mk "integer" "int16" "" [] [] none []
  | "i32" => .mk "integer" "int32" "" [] [] none []
  | "i64" => .mk "integer" "int64" "" [] [] none []
  | _ => emptyOASchema

/-- `schemaOrReferenceForField`: struct types yield a reference (registering
the required schema), maps an `object` with `additionalProperties`, lists an
`array` with `items`, scalars the table schema (unknown scalars an empty
schema).  An unresolvable struct yields `none` (the source logs and returns
nil). -/
def schemaOrReferenceForField (fd : FileDesc) (st : GenState) :
    TType → Option OASchemaOrRef × GenState
  | .tstruct name =>
      match fd.lookup name with
      | none => (none, st)
      | some _ =>
          let (st', ref) := schemaReferenceForMessage st name
          (some (.sref ref), st')
  | .tmap _ v =>
      let (valueSchema, st') := schemaOrReferenceForField fd st v
      (some (.sch (.mk "object" "" "" [] [] valueSchema [])), st')
  | .tlist e =>
      let (itemSchema, st') := schemaOrReferenceForField fd st e
      (some (.sch (.mk "array" "" "" [] [] none [itemSchema])), st')
  | .base name => (some (.sch (baseTypeSchema name)), st)

/-! ### Constants from `common/consts` (package not among the sources).

Modelled from the spec: the annotation namespaces of §6
(`api.query|path|header|cookie|body|form|raw_body`, …), the content types of
§4.3 (`application/json`, `multipart/form-data`,
`application/x-www-form-urlencoded`, `text/plain`), the
`#/components/schemas/` reference form, and the `200` response key.  The
`Body`/`RawBody` component suffixes and the default response description are
not fixed by the spec; their exact spelling is immaterial to every claim. -/

def apiQuery : String := "api.query"
def apiPath : String := "api.path"
def apiCookie : String := "api.cookie"
def apiHeader : String := "api.header"
def apiBody : String := "api.body"
def apiForm : String := "api.form"
def apiRawBody : String := "api.raw_body"
def openapiProperty : String := "openapi.property"
def contentTypeJSON : String := "application/json"
def contentTypeFormMultipart : String := "multipart/form-data"
def contentTypeFormURLEncoded : String := "application/x-www-form-urlencoded"
def contentTypeRawBody : String := "text/plain"
def parameterInQuery : String := "query"
def parameterInPath : String := "path"
def parameterInCookie : String := "cookie"
def parameterInHeader : String := "header"
def httpMethodGet : String := "GET"
def httpMethodHead : String := "HEAD"
def httpMethodDelete : String := "DELETE"
def statusOK : String := "200"
def defaultResponseDesc : String := "Successful response"
def suffixBody : String := "Body"
def suffixRawBody : String := "RawBody"

/-! ### Pipeline B: generator functions (`openapi_gen.go`) -/

/-- One field round of `getSchemaByOption`: fields carrying the annotation
contribute a property (under the annotation value, falling back to the field
name) and, when listed in the struct-level `required`, a required entry
(recorded even when the field schema resolves to nil and the property is
skipped, exactly as the source `continue` is placed). -/
def schemaByOptionLoop (fd : FileDesc) (allRequired : List String)
    (option : String) :
    GenState → List FieldDesc →
    GenState × List (String × OASchemaOrRef) × List String
  | st, [] => (st, [], [])
  | st, field :: rest =>
      match lookupAnn field.annotations option with
      | [] => schemaByOptionLoop fd allRequired option st rest
      | v0 :: _ =>
          let extName := if v0 ≠ "" then v0 else field.name
          let reqHere := if allRequired.contains extName then [extName] else []
          let (fieldSchema, st1) := schemaOrReferenceForField fd st field.type_
          match fieldSchema with
          | none =>
              let (st2, props, reqs) :=
                schemaByOptionLoop fd allRequired option st1 rest
              (st2, props, reqHere ++ reqs)
          | some fs =>
              let fs' :=
                match fs with
                | .sch sc =>
                    OASchemaOrRef.sch (mergeSchema (sc.setDescription field.comments)
                      (field.propertyAnn.getD emptyOASchema))
                | .sref r => .sref r
              let (st2, props, reqs) :=
                schemaByOptionLoop fd allRequired option st1 rest
              (st2, (extName, fs') :: props, reqHere ++ reqs)

/-- `getSchemaByOption`: object schema over the annotated fields, merged
with the struct-level `openapi.schema` payload, `required` set last. -/
def getSchemaByOption (fd : FileDesc) (st : GenState) (desc : StructDesc)
    (option : String) : OASchema × GenState :=
  let allRequired :=
    match desc.schemaAnn with
    | some ext => ext.required
    | none => []
  let (st', props, required) :=
    schemaByOptionLoop fd allRequired option st desc.fields
  let schema := OASchema.mk "object" "" "" [] props none []
  let schema :=
    match desc.schemaAnn with
    | some ext => mergeSchema schema ext
    | none => schema
  (schema.setRequired required, st')

/-- `addSchemaToDocument`: append to `components.schemas` unless the name
was already generated. -/
def addSchemaToDocument (st : GenState) (d : OADocument) (name : String)
    (value : OASchemaOrRef) : GenState × OADocument :=
  if st.generatedSchemas.contains name then (st, d)
  else
    ({ st with generatedSchemas := st.generatedSchemas ++ [name] },
     { d with schemas := d.schemas ++ [(name, value)] })

/-- `openapi.Header` (description + schema). -/
structure OAHeader where
  description : String := ""
  schema : Option OASchemaOrRef := none
  deriving Repr

/-- `openapi.MediaType`. -/
structure OAMediaType where
  schema : Option OASchemaOrRef := none
  deriving Repr

/-- The header loop of `getResponseForStruct` (fields with a non-empty
`api.header` annotation value). -/
def responseHeadersLoop (fd : FileDesc) :
    GenState → List FieldDesc → GenState × List (String × OAHeader)
  | st, [] => (st, [])
  | st, field :: rest =>
      match lookupAnn field.annotations apiHeader with
      | [] => responseHeadersLoop fd st rest
      | ext :: _ =>
          if ext ≠ "" then
            let (fs, st1) := schemaOrReferenceForField fd st field.type_
            let (st2, hs) := responseHeadersLoop fd st1 rest
            (st2, (ext, { description := field.comments, schema := fs }) :: hs)
          else responseHeadersLoop fd st rest

/-- `getResponseForStruct`: headers from `api.header` fields; `api.body` and
`api.raw_body` schemas are registered as `<Struct><suffix>` components and
referenced from `application/json` / `text/plain` media entries; the status
key is always `200`. -/
def getResponseForStruct (fd : FileDesc) (st : GenState) (d : OADocument)
    (desc : StructDesc) :
    GenState × OADocument × String × List (String × OAHeader) ×
      List (String × OAMediaType) :=
  let (st1, headers) := responseHeadersLoop fd st desc.fields
  let (bodySchema, st2) := getSchemaByOption fd st1 desc apiBody
  let (rawBodySchema, st3) := getSchemaByOption fd st2 desc apiRawBody
  let (st4, d1, adds1) :=
    if ¬ bodySchema.properties.isEmpty then
      let ref := "#/components/schemas/" ++ desc.name ++ suffixBody
      let (st', d') :=
        addSchemaToDocument st3 d (desc.name ++ suffixBody) (.sch bodySchema)
      (st', d', [(contentTypeJSON,
        ({ schema := some (.sref ref) } : OAMediaType))])
    else (st3, d, [])
  let (st5, d2, adds2) :=
    if ¬ rawBodySchema.properties.isEmpty then
      let ref := "#/components/schemas/" ++ desc.name ++ suffixRawBody
      let (st', d') :=
        addSchemaToDocument st4 d1 (desc.name ++ suffixRawBody) (.sch rawBodySchema)
      (st', d', [(contentTypeRawBody,
        ({ schema := some (.sref ref) } : OAMediaType))])
    else (st4, d1, [])
  (st5, d2, statusOK, headers, adds1 ++ adds2)

/-- Apply the (parsed, presence-guarded) `openapi.property` payload to a
freshly computed field schema, as the parameter branches of `buildOperation`
do (a reference schema has no inline `Schema` to merge onto). -/
def applyPropertyAnn (v : FieldDesc) (fs : Option OASchemaOrRef) :
    Option OASchemaOrRef :=
  match v.propertyAnn, fs with
  | some ann, some (.sch sc) => some (.sch (mergeSchema sc ann))
  | _, _ => fs

/-- Intermediate parameter attributes of one field round. -/
structure ParamAcc where
  name : String := ""
  in_ : String := ""
  description : String := ""
  schema : Option OASchemaOrRef := none
  required : Bool := false

/-- One annotation branch of the parameter loop: a non-empty annotation
value overwrites name/in/description and recomputes the field schema. -/
def paramBranch (fd : FileDesc) (v : FieldDesc) (ann inKind : String)
    (setRequired : Bool) (acc : ParamAcc) (st : GenState) :
    ParamAcc × GenState :=
  match lookupAnn v.annotations ann with
  | ext :: _ =>
      if ext ≠ "" then
        let (fs, st') := schemaOrReferenceForField fd st v.type_
        ({ name := ext, in_ := inKind, description := v.comments,
           schema := applyPropertyAnn v fs,
           required := acc.required || setRequired }, st')
      else (acc, st)
  | [] => (acc, st)

/-- The parameter loop of `buildOperation`: the four annotation branches run
in sequence (`api.query`, `api.path` — which alone forces `required` —,
`api.cookie`, `api.header`), the parsed `openapi.parameter` payload is
merged, and the parameter is kept only when both a name and a location were
set. -/
def buildParamsLoop (fd : FileDesc) :
    GenState → List FieldDesc → GenState × List OAParameter
  | st, [] => (st, [])
  | st, v :: rest =>
      let (a1, st1) := paramBranch fd v apiQuery parameterInQuery false {} st
      let (a2, st2) := paramBranch fd v apiPath parameterInPath true a1 st1
      let (a3, st3) := paramBranch fd v apiCookie parameterInCookie false a2 st2
      let (a4, st4) := paramBranch fd v apiHeader parameterInHeader false a3 st3
      let parameter : OAParameter :=
        { name := a4.name, in_ := a4.in_, description := a4.description,
          required := a4.required, schema := a4.schema }
      let parameter := mergeParameter parameter (v.parameterAnn.getD {})
      let (st5, params) := buildParamsLoop fd st4 rest
      (st5,
       (if a4.name ≠ "" ∧ a4.in_ ≠ "" then [parameter] else []) ++ params)

/-- `openapi.RequestBody`. -/
structure OARequestBody where
  description : String := ""
  content : List (String × OAMediaType) := []
  deriving Repr

/-- The request-body half of `buildOperation`: omitted for GET/HEAD/DELETE;
otherwise the `api.body`, `api.form` and `api.raw_body` schemas contribute
`application/json`, `multipart/form-data` + `application/x-www-form-urlencoded`
and `text/plain` media entries for whichever schemas have properties. -/
def buildRequestBody (fd : FileDesc) (st : GenState) (methodName : String)
    (inputDesc : StructDesc) : Option OARequestBody × GenState :=
  if methodName ≠ httpMethodGet ∧ methodName ≠ httpMethodHead ∧
      methodName ≠ httpMethodDelete then
    let (bodySchema, st1) := getSchemaByOption fd st inputDesc apiBody
    let (formSchema, st2) := getSchemaByOption fd st1 inputDesc apiForm
    let (rawBodySchema, st3) := getSchemaByOption fd st2 inputDesc apiRawBody
    let adds :=
      (if ¬ bodySchema.properties.isEmpty then
        [(contentTypeJSON, ({ schema := some (.sch bodySchema) } : OAMediaType))]
       else []) ++
      (if ¬ formSchema.properties.isEmpty then
        [(contentTypeFormMultipart,
           ({ schema := some (.sch formSchema) } : OAMediaType)),
         (contentTypeFormURLEncoded,
           ({ schema := some (.sch formSchema) } : OAMediaType))]
       else []) ++
      (if ¬ rawBodySchema.properties.isEmpty then
        [(contentTypeRawBody,
           ({ schema := some (.sch rawBodySchema) } : OAMediaType))]
       else [])
    if adds.isEmpty then (none, st3)
    else (some { description := inputDesc.comments, content := adds }, st3)
  else (none, st)

/-- `openapi.Response` as `buildOperation` assembles it (`none` = the field
is left nil and serialized as absent). -/
structure OAResponse where
  description : String := ""
  headers : Option (List (String × OAHeader)) := none
  content : Option (List (String × OAMediaType)) := none
  deriving Repr

/-- The generated `openapi.Operation`. -/
structure OAOperation where
  tags : List String := []
  description : String := ""
  operationID : String := ""
  parameters : List OAParameter := []
  responses : Option (List (String × OAResponse)) := none
  requestBody : Option OARequestBody := none
  servers : List String := []
  deriving Repr

/-- The `:(\w+)` → `{$1}` path rewrite of `buildOperation`
(scanner analogous to `convertPathChars`, in the inverse direction). -/
def colonPathChars : List Char → Option (List Char) → List Char
  | [], none => []
  | [], some acc =>
      if acc.isEmpty then [':'] else '{' :: acc.reverse ++ ['}']
  | c :: rest, none =>
      if c = ':' then colonPathChars rest (some [])
      else c :: colonPathChars rest none
  | c :: rest, some acc =>
      if isWordChar c then colonPathChars rest (some (c :: acc))
      else
        (if acc.isEmpty then [':'] else '{' :: acc.reverse ++ ['}']) ++
          (if c = ':' then colonPathChars rest (some [])
           else c :: colonPathChars rest none)

def colonPathToBrace (path : String) : String :=
  String.mk (colonPathChars path.data none)

def startsWithStr (p s : String) : Bool :=
  p.data.isPrefixOf s.data

/-- The host normalization of `buildOperation`. -/
def normalizeHost (host : String) : String :=
  if ¬ startsWithStr "http://" host ∧ ¬ startsWithStr "https://" host then
    "http://" ++ host
  else host

/-- `buildOperation`. -/
def buildOperation (fd : FileDesc) (st : GenState) (d : OADocument)
    (methodName description operationID tagName path host : String)
    (inputDesc outputDesc : StructDesc) :
    GenState × OADocument × OAOperation × String :=
  let (st1, parameters) := buildParamsLoop fd st inputDesc.fields
  let (requestBody, st2) := buildRequestBody fd st1 methodName inputDesc
  let (st3, d1, name, header, content) := getResponseForStruct fd st2 d outputDesc
  let desc := if outputDesc.comments = "" then defaultResponseDesc
              else outputDesc.comments
  let headerOrEmpty := if header.isEmpty then none else some header
  let contentOrEmpty := if content.isEmpty then none else some content
  let responses :=
    if headerOrEmpty.isSome ∨ contentOrEmpty.isSome then
      some [(name, ({ description := desc, headers := headerOrEmpty,
                      content := contentOrEmpty } : OAResponse))]
    else none
  let path2 := colonPathToBrace path
  let servers := if host ≠ "" then [normalizeHost host] else []
  (st3, d1,
   { tags := [tagName], description := description, operationID := operationID,
     parameters := parameters, responses := responses,
     requestBody := requestBody, servers := servers },
   path2)

/-! ### Pipeline B: struct expansion (`addSchemasForStructsToDocument`)

The source recursion has no structural termination argument (it descends
into struct-typed fields *before* any generated/required check), so it is
embedded with an explicit fuel that bounds the total number of recursive
steps.  `none` means the budget was exhausted; the Go recursion on a given
input terminates iff some fuel returns `some`. -/

/-- The field loop building a struct's own schema (properties under the
field names, with the `openapi.property` merge). -/
def structSchemaFields (fd : FileDesc) :
    GenState → List FieldDesc → GenState × List (String × OASchemaOrRef)
  | st, [] => (st, [])
  | st, field :: rest =>
      let (fieldSchema, st1) := schemaOrReferenceForField fd st field.type_
      match fieldSchema with
      | none => structSchemaFields fd st1 rest
      | some fs =>
          let fs' :=
            match fs with
            | .sch sc =>
                OASchemaOrRef.sch (mergeSchema (sc.setDescription field.comments)
                  (field.propertyAnn.getD emptyOASchema))
            | .sref r => .sref r
          let (st2, props) := structSchemaFields fd st1 rest
          (st2, (field.name, fs') :: props)

/-- The depth-first pre-pass collection: the struct descriptors of the
struct-typed fields (an unresolvable name finds nothing — no `include`d
files are modelled, so the include-resolution fallback is empty). -/
def structFieldStructs (fd : FileDesc) (s : StructDesc) : List StructDesc :=
  s.fields.foldr
    (fun f acc =>
      match f.type_ with
      | .tstruct n =>
          match fd.lookup n with
          | some sd => sd :: acc
          | none => acc
      | _ => acc)
    []

/-- The build-and-register block of one `addSchemasForStructsToDocument`
round (the body run for a required, not-yet-generated struct): build the
object schema over the struct's fields, merge the struct-level
`openapi.schema` payload, register it under the struct's name. -/
def addSchemaForStruct (fd : FileDesc) (st1 : GenState) (d1 : OADocument)
    (s : StructDesc) : GenState × OADocument :=
  let structDesc := (fd.lookup s.name).getD s
  let (st2, props) := structSchemaFields fd st1 structDesc.fields
  let schema :=
    OASchema.mk "object" "" structDesc.comments [] props none []
  let schema :=
    match structDesc.schemaAnn with
    | some ext => mergeSchema schema ext
    | none => schema
  addSchemaToDocument st2 d1 s.name (.sch schema)

/-- `addSchemasForStructsToDocument` with fuel.  For each struct: descend
into its struct-typed fields' structs first (unguarded!), then skip it
unless it is required and not yet generated, else build and register its
schema. -/
def addSchemasAux (fd : FileDesc) :
    Nat → GenState → OADocument → List StructDesc →
    Option (GenState × OADocument)
  | 0, _, _, _ => none
  | _ + 1, st, d, [] => some (st, d)
  | fuel + 1, st, d, s :: rest =>
      let sls := structFieldStructs fd s
      match (if sls.isEmpty then some (st, d)
             else addSchemasAux fd fuel st d sls) with
      | none => none
      | some (st1, d1) =>
          let schemaName := s.name
          if ¬ st1.requiredSchemas.contains schemaName ∨
              st1.generatedSchemas.contains schemaName then
            addSchemasAux fd fuel st1 d1 rest
          else
            let (st3, d2) := addSchemaForStruct fd st1 d1 s
            addSchemasAux fd fuel st3 d2 rest

/-- The `requiredSchemas` worklist loop of `BuildDocument` (with fuel): while
the worklist is non-empty, run `addSchemasForStructsToDocument` over all
structs of the file, then truncate the worklist by its pre-call length. -/
def buildDocumentLoop (fd : FileDesc) :
    Nat → GenState → OADocument → Option (GenState × OADocument)
  | 0, _, _ => none
  | fuel + 1, st, d =>
      if st.requiredSchemas.isEmpty then some (st, d)
      else
        let count := st.requiredSchemas.length
        match addSchemasAux fd fuel st d fd.structs with
        | none => none
        | some (st1, d1) =>
            buildDocumentLoop fd fuel
              { st1 with requiredSchemas := st1.requiredSchemas.drop count } d1

/-- C8's "multiple such operations": folding `generateRequestMessage` over a
list of operations (discarding the returned type names). -/
def c8Fold : Converter → List Operation → Except String Converter
  | c, [] => .ok c
  | c, op :: rest => do
      let (c', _) ← generateRequestMessage c op
      c8Fold c' rest

/-- C2's claim-side wrapper fold: one `response_<code>` field per response,
typed with `processSingleResponse`'s name for it, over a given response
list. -/
def c2WrapperFields (op : Operation) :
    Converter → List (String × ResponseRef) →
    Except String (Converter × List ProtoField)
  | c, [] => .ok (c, [])
  | c, (statusCode, rref) :: rest => do
      let (c1, messageName) ← processSingleResponse c statusCode rref op
      let (c2, fs) ← c2WrapperFields op c1 rest
      .ok (c2, { name := "response_" ++ statusCode, type_ := messageName } :: fs)

/-- The concrete C2 counterexample operation: two responses, the first (in
map-iteration order) content-less, the second a `$ref` (content-ful). -/
def opC2 : Operation :=
  { operationID := "op",
    responses := some
      [("200", { ref := "", value := some { content := [] } }),
       ("404", { ref := "#/components/responses/R", value := none })] }

/-- The concrete C3 counterexample operation: a `$ref` request body. -/
def opC3 : Operation :=
  { operationID := "op",
    requestBody := some { ref := "#/components/requestBodies/Foo",
                          value := none } }

/-- C3's claim-side assembly: convert each request-body media-type schema
(under the sanitized `<operationId>Request<MediaType>` name) and each
parameter (under its own name) into one `<operationId>Request` message. -/
def c3Assemble (c : Converter) (op : Operation) :
    Except String (Converter × ProtoMessage) := do
  let messageName := op.operationID ++ "Request"
  let message0 : ProtoMessage := .mk messageName [] [] [] []
  let (c1, m1) ←
    (match op.requestBody with
     | some rb =>
         (match rb.value with
          | some body => convertMediaEntries messageName c message0 body.content
          | none => .ok (c, message0))
     | none => .ok (c, message0))
  convertParams c1 m1 op.parameters

/-- The C1 fixture: a cyclic struct graph `A { b: B }`, `B { a: A }`. -/
def descA : StructDesc :=
  { name := "A", fields := [{ name := "b", type_ := .tstruct "B" }] }

def descB : StructDesc :=
  { name := "B", fields := [{ name := "a", type_ := .tstruct "A" }] }

def cycFd : FileDesc := { structs := [descA, descB] }

/-- C9's claim-side media entries, following the claim's words: parallel
media-type entries — `application/json` from `api.body`, `multipart/form-data`
plus `application/x-www-form-urlencoded` from `api.form`, `text/plain` from
`api.raw_body` — for whichever of those schemas are non-empty (have
properties). -/
def c9Content (fd : FileDesc) (st : GenState) (input : StructDesc) :
    List (String × OAMediaType) :=
  let (bodySchema, st1) := getSchemaByOption fd st input apiBody
  let (formSchema, st2) := getSchemaByOption fd st1 input apiForm
  let (rawBodySchema, _) := getSchemaByOption fd st2 input apiRawBody
  (if ¬ bodySchema.properties.isEmpty then
    [(contentTypeJSON, ({ schema := some (.sch bodySchema) } : OAMediaType))]
   else []) ++
  (if ¬ formSchema.properties.isEmpty then
    [(contentTypeFormMultipart,
       ({ schema := some (.sch formSchema) } : OAMediaType)),
     (contentTypeFormURLEncoded,
       ({ schema := some (.sch formSchema) } : OAMediaType))]
   else []) ++
  (if ¬ rawBodySchema.properties.isEmpty then
    [(contentTypeRawBody,
       ({ schema := some (.sch rawBodySchema) } : OAMediaType))]
   else [])

/-- C9's claim-side request body: none for GET/HEAD/DELETE regardless of
the annotations present, else the parallel media entries when any exist. -/
def c9RequestBody (fd : FileDesc) (st : GenState) (methodName : String)
    (input : StructDesc) : Option OARequestBody :=
  if methodName = httpMethodGet ∨ methodName = httpMethodHead ∨
      methodName = httpMethodDelete then none
  else
    let c := c9Content fd st input
    if c.isEmpty then none
    else some { description := input.comments, content := c }

/-- C7's claim-side field line: `<indent>  [repeated ]<type> <name> = <num>`
with the bracketed option list, closed by `;`. -/
def c7FieldLine (indent : String) (num : Nat) (f : ProtoField) : String :=
  indent ++ "  " ++ (if f.repeated then "repeated " else "") ++
    f.type_ ++ " " ++ f.name ++ " = " ++ toString num ++
    (if f.options.isEmpty then ""
     else " [\n    " ++
       String.intercalate ", " (f.options.map encodeFieldOption) ++ "]") ++
    ";\n"

/-- C7's claim-side field section body over an enumerated field list. -/
def c7FieldsEnum (indent : String) : List (Nat × ProtoField) → String
  | [] => ""
  | (i, f) :: rest => c7FieldLine indent (i + 1) f ++ c7FieldsEnum indent rest

/-- C7's claim-side field section: fields sorted by name, numbered
sequentially starting at 1 in that order (position `i` gets number
`i + 1`). -/
def c7Fields (indent : String) (fields : List ProtoField) : String :=
  c7FieldsEnum indent (List.enumFrom 0 (sortByKey ProtoField.name fields))

/-- C7's claim-side message block: like the source's but with the field
numbering expressed by list position. -/
def c7Message (m : ProtoMessage) (lvl : Nat) : String :=
  let indent := String.join (List.replicate lvl "  ")
  indent ++ "message " ++ m.name ++ " \x7b\n" ++
    (if m.options.isEmpty then ""
     else indent ++ "  option" ++
       String.join (m.options.map (fun o => encodeFieldOption o ++ ";\n"))) ++
    c7Fields indent m.fields ++
    encodeMessagesList m.messages (lvl + 1) ++
    indent ++ "\x7d\n\n"

/-- C7's claim-side message section. -/
def c7Messages2 : List ProtoMessage → Nat → String
  | [], _ => ""
  | m :: rest, lvl => c7Message m lvl ++ c7Messages2 rest lvl

/-- C7's claim-side rendering, following the claim's words: syntax line,
package declaration, SORTED imports, file options, messages sorted by name
(fields numbered from 1 in sorted order), services sorted by name. -/
def c7Render (pf : ProtoFile) : String :=
  "syntax = \"proto3\";\n\n" ++
    "package " ++ pf.packageName ++ ";\n\n" ++
    String.join ((sortByKey (fun s : String => s) pf.imports).map
      (fun i => "import \"" ++ i ++ "\";\n")) ++
    (if pf.imports.isEmpty then "" else "\n") ++
    String.join (pf.options.map (fun kv =>
      "option " ++ kv.1 ++ " = " ++ stringify kv.2 ++ ";\n")) ++
    (if pf.options.isEmpty then "" else "\n") ++
    c7Messages2 (sortByKey ProtoMessage.name pf.messages) 0 ++
    String.join ((sortByKey ProtoService.name pf.services).map encodeService)

/-- C7's amended rendering: identical to `c7Render` except that imports are
rendered in their insertion order (the source never sorts them). -/
def c7AmendedRender (pf : ProtoFile) : String :=
  "syntax = \"proto3\";\n\n" ++
    "package " ++ pf.packageName ++ ";\n\n" ++
    String.join (pf.imports.map (fun i => "import \"" ++ i ++ "\";\n")) ++
    (if pf.imports.isEmpty then "" else "\n") ++
    String.join (pf.options.map (fun kv =>
      "option " ++ kv.1 ++ " = " ++ stringify kv.2 ++ ";\n")) ++
    (if pf.options.isEmpty then "" else "\n") ++
    c7Messages2 (sortByKey ProtoMessage.name pf.messages) 0 ++
    String.join ((sortByKey ProtoService.name pf.services).map encodeService)

/-- The C7 counterexample file: two imports out of alphabetical order. -/
def pf7 : ProtoFile := { packageName := "p", imports := ["b.proto", "a.proto"] }

/-- The key order the encoder's sorts use (Go string `<` compares bytes;
code-point order on the char list agrees with it). -/
def keyLe (key : α → String) (a b : α) : Prop :=
  (key a).data ≤ (key b).data

/-- The C6 counterexample operation, first map order: the content-less `200`
first, the `$ref` `404` second. -/
def opC6a : Operation :=
  { operationID := "op",
    responses := some
      [("200", { ref := "", value := some { content := [] } }),
       ("404", { ref := "#/components/responses/R", value := none })] }

/-- The same operation under the other iteration order of the same
responses map. -/
def opC6b : Operation :=
  { operationID := "op",
    responses := some
      [("404", { ref := "#/components/responses/R", value := none }),
       ("200", { ref := "", value := some { content := [] } })] }

def specC6a : OpenAPISpec := { paths := [("/x", [("GET", opC6a)])] }

def specC6b : OpenAPISpec := { paths := [("/x", [("GET", opC6b)])] }

/-- The two same-named C4 witness messages (one field each). -/
def mX1 : ProtoMessage := .mk "X" [{ name := "a", type_ := "string" }] [] [] []

def mX2 : ProtoMessage := .mk "X" [{ name := "b", type_ := "int64" }] [] [] []

def mC6a : ProtoMessage := .mk "a" [] [] [] []

def mC6b : ProtoMessage := .mk "b" [] [] [] []

def pfW1 : ProtoFile := { packageName := "p", messages := [mC6b, mC6a] }

def pfW2 : ProtoFile := { packageName := "p", messages := [mC6a, mC6b] }

def svcA : ProtoService := { name := "A" }

def svcB : ProtoService := { name := "B" }

def pfS1 : ProtoFile := { packageName := "p", services := [svcB, svcA] }

def pfS2 : ProtoFile := { packageName := "p", services := [svcA, svcB] }

def methA : ProtoMethod := { name := "a", input := "I", output := "O" }

def methB : ProtoMethod := { name := "b", input := "I", output := "O" }

def fldA : ProtoField := { name := "a", type_ := "string" }

def fldB : ProtoField := { name := "b", type_ := "int64" }

/-- A one-struct file for the worklist-determinism witness. -/
def fdW : FileDesc := { structs := [{ name := "S", fields := [] }] }

def stW : GenState := { requiredSchemas := ["S"], generatedSchemas := [] }

def dW : OADocument := { schemas := [] }

/-- The (unique) result of the worklist loop on `fdW` at every sufficient
fuel. -/
def rW : GenState × OADocument :=
  ({ requiredSchemas := [], generatedSchemas := ["S"] },
   { schemas := [("S", OASchemaOrRef.sch (OASchema.mk "object" "" "" [] [] none []))] })

/-! ## Theorems -/

/-- Components-loop success implies every component schema converted
successfully (used for error propagation). -/
theorem convertComponentsLoop_ok_of_mem :
    ∀ (l : List (String × SchemaRef)) (c c' : Converter),
      convertComponentsLoop c l = .ok c' →
      ∀ nm sr, (nm, sr) ∈ l → ∃ out, convertSchema sr nm = .ok out := by
  intro l
  induction l with
  | nil => intro c c' _ nm sr h; cases h
  | cons hd tl ih =>
      intro c c' hok nm sr hmem
      rw [List.mem_cons] at hmem
      rw [show hd = (hd.1, hd.2) from rfl, convertComponentsLoop] at hok
      cases hconv : convertSchema hd.2 hd.1 with
      | error e =>
          exfalso
          rw [hconv] at hok
          simp only [wrapErr, Bind.bind, Except.bind] at hok
          cases hok
      | ok out =>
          rw [hconv] at hok
          simp only [wrapErr, Bind.bind, Except.bind] at hok
          rcases hmem with hmem | hmem
          · have h1 : nm = hd.1 := congrArg Prod.fst hmem
            have h2 : sr = hd.2 := congrArg Prod.snd hmem
            subst h1; subst h2
            exact ⟨out, hconv⟩
          · exact ih _ _ hok nm sr hmem

/-- C5: a non-reference schema (`Ref == ""`, `Value != nil`) whose `Type` is
nil makes `ConvertSchemaToProtoFieldOrMessage` fail with exactly
"schema type is required", and a component carrying such a schema aborts the
whole `Convert` run with an error. -/
theorem missing_type_is_hard_error :
    (∀ (format : String) (props : SchemaProps) (items addProps : OptSchemaRef)
        (protoName : String),
      convertSchema (.val none format props items addProps) protoName =
        .error "schema type is required") ∧
    (∀ (stp : Operation → String) (c : Converter) (spec : OpenAPISpec)
        (nm format : String) (props : SchemaProps)
        (items addProps : OptSchemaRef),
      (nm, SchemaRef.val none format props items addProps) ∈ spec.components →
      ∃ e, Convert stp c spec = .error e) := by
  constructor
  · intro format props items addProps protoName
    rfl
  · intro stp c spec nm format props items addProps hmem
    cases hloop : convertComponentsLoop c spec.components with
    | error e =>
        refine ⟨"error converting components to proto messages" ++ ": " ++ e, ?_⟩
        rw [Convert]
        simp only [wrapErr, hloop, Bind.bind, Except.bind]
    | ok c1 =>
        exfalso
        obtain ⟨out, hout⟩ :=
          convertComponentsLoop_ok_of_mem spec.components c c1 hloop nm _ hmem
        rw [show convertSchema (.val none format props items addProps) nm =
              .error "schema type is required" from rfl] at hout
        cases hout

/-- C5 witness. -/
theorem missing_type_is_hard_error_witness :
    ∃ e, Convert (fun _ => "") (newProtoConverter "p")
        { components := [("Bad", SchemaRef.val none "" .nil .none .none)] } =
      .error e :=
  missing_type_is_hard_error.2 (fun _ => "") (newProtoConverter "p")
    { components := [("Bad", SchemaRef.val none "" .nil .none .none)] }
    "Bad" "" .nil .none .none (by simp)

/-- The object property loop: a property whose own conversion yields a
message contributes both the `<prop>Field` synthetic field and the nested
message. -/
theorem convertProps_mem :
    ∀ (props : SchemaProps) fs ms imps,
      convertProps props = .ok (fs, ms, imps) →
      ∀ pn ps pout m, (pn, ps) ∈ props.toList →
        convertSchema ps pn = .ok pout →
        pout.result = some (.inr m) →
        ({ name := pn ++ "Field", type_ := m.name } : ProtoField) ∈ fs ∧
          m ∈ ms := by
  intro props
  induction props using SchemaProps.recSelf with
  | h1 => intro fs ms imps _ pn ps pout m h; cases h
  | h2 hn hs tl ih =>
      intro fs ms imps hok pn ps pout m hmem hconv hres
      rw [SchemaProps.toList, List.mem_cons] at hmem
      rw [convertProps] at hok
      cases hhd : convertSchema hs hn with
      | error e =>
          exfalso; rw [hhd] at hok
          simp only [Bind.bind, Except.bind] at hok
          cases hok
      | ok hout =>
          rw [hhd] at hok
          simp only [Bind.bind, Except.bind] at hok
          cases hrest : convertProps tl with
          | error e =>
              exfalso; rw [hrest] at hok
              cases hok
          | ok outs =>
              rw [hrest] at hok
              obtain ⟨fs0, ms0, imps0⟩ := outs
              rcases hmem with hmem | hmem
              · have h1 : pn = hn := congrArg Prod.fst hmem
                have h2 : ps = hs := congrArg Prod.snd hmem
                subst h1; subst h2
                rw [hconv] at hhd
                injection hhd with hhd
                subst hhd
                rw [hres] at hok
                injection hok with hok
                injection hok with hfs hok
                injection hok with hms _
                subst hfs; subst hms
                refine ⟨List.mem_cons_self _ _, ?_⟩
                simp
              · obtain ⟨hf, hm⟩ := ih fs0 ms0 imps0 hrest pn ps pout m hmem hconv hres
                cases hres' : hout.result with
                | none =>
                    rw [hres'] at hok
                    injection hok with hok
                    injection hok with hfs hok
                    injection hok with hms _
                    subst hfs; subst hms
                    exact ⟨hf, by simp [hm]⟩
                | some fm =>
                    cases fm with
                    | inl f =>
                        rw [hres'] at hok
                        injection hok with hok
                        injection hok with hfs hok
                        injection hok with hms _
                        subst hfs; subst hms
                        exact ⟨List.mem_cons_of_mem _ hf, by simp [hm]⟩
                    | inr nested =>
                        rw [hres'] at hok
                        injection hok with hok
                        injection hok with hfs hok
                        injection hok with hms _
                        subst hfs; subst hms
                        exact ⟨List.mem_cons_of_mem _ hf, by simp [hm]⟩

/-- C10: in an object-schema conversion, every property whose own schema
converts to a message contributes, inside the containing message, both the
nested message itself and a synthetic field named `<property>Field` typed
with the nested message's name. -/
theorem object_property_field_suffix
    (types : List String) (format : String) (props : SchemaProps)
    (items addProps : OptSchemaRef) (protoName : String) (out : ConvOut)
    (M : ProtoMessage)
    (hs : types.contains "string" = false)
    (hi : types.contains "integer" = false)
    (hn : types.contains "number" = false)
    (hb : types.contains "boolean" = false)
    (ha : types.contains "array" = false)
    (ho : types.contains "object" = true)
    (hconv : convertSchema (.val (some types) format props items addProps)
        protoName = .ok out)
    (hres : out.result = some (.inr M)) :
    ∀ pn ps pout m, (pn, ps) ∈ props.toList →
      convertSchema ps pn = .ok pout →
      pout.result = some (.inr m) →
      ({ name := pn ++ "Field", type_ := m.name } : ProtoField) ∈ M.fields ∧
        m ∈ M.messages := by
  intro pn ps pout m hmem hpconv hpres
  rw [convertSchema_val_eq, hs, hi, hn, hb, ha, ho] at hconv
  simp only [Bool.false_eq_true, if_false, if_true, Bind.bind, Except.bind]
    at hconv
  cases hprops : convertProps props with
  | error e => rw [hprops] at hconv; cases hconv
  | ok outs =>
      rw [hprops] at hconv
      obtain ⟨fs, ns, imps⟩ := outs
      obtain ⟨hf, hm⟩ := convertProps_mem props fs ns imps hprops pn ps pout m
        hmem hpconv hpres
      have hconv2 : convertAddProps addProps protoName fs ns imps =
          Except.ok out := hconv
      cases addProps with
      | none =>
          rw [show convertAddProps .none protoName fs ns imps =
                .ok { result := some (.inr (.mk protoName fs ns [] [])),
                      imports := imps } from rfl] at hconv2
          injection hconv2 with hconv2
          rw [← hconv2] at hres
          injection hres with hres
          injection hres with hres
          rw [← hres]
          exact ⟨hf, hm⟩
      | some apSchema =>
          rw [show convertAddProps (.some apSchema) protoName fs ns imps = (do
                let apOut ← convertSchema apSchema
                  (protoName ++ "AdditionalProperties")
                let mapValueType :=
                  match apOut.result with
                  | some (.inr m) => m.name
                  | _ => "string"
                Except.ok
                  ({ result := some (.inr (.mk protoName
                       (fs ++
                         [{ name := "additionalProperties", type_ := "map<string, " ++ mapValueType ++ ">" }])
                       ns [] [])),
                     parentAdds := apOut.parentAdds,
                     imports := imps ++ apOut.imports } : ConvOut))
              from rfl] at hconv2
          simp only [Bind.bind, Except.bind] at hconv2
          cases hap : convertSchema apSchema (protoName ++ "AdditionalProperties") with
          | error e => rw [hap] at hconv2; cases hconv2
          | ok apOut =>
              rw [hap] at hconv2
              injection hconv2 with hconv2
              rw [← hconv2] at hres
              injection hres with hres
              injection hres with hres
              rw [← hres]
              exact ⟨List.mem_append_left _ hf, hm⟩

/-- C10 witness: a concrete object schema with one object-typed property. -/
theorem object_property_field_suffix_witness :
    ({ name := "inner" ++ "Field", type_ := "inner" } : ProtoField) ∈
        (ProtoMessage.mk "M" [{ name := "innerField", type_ := "inner" }]
          [.mk "inner" [] [] [] []] [] []).fields ∧
      (ProtoMessage.mk "inner" [] [] [] []) ∈
        (ProtoMessage.mk "M" [{ name := "innerField", type_ := "inner" }]
          [.mk "inner" [] [] [] []] [] []).messages :=
  object_property_field_suffix ["object"] ""
    (.cons "inner" (.val (some ["object"]) "" .nil .none .none) .nil)
    .none .none "M"
    { result := some (.inr (.mk "M" [{ name := "innerField", type_ := "inner" }]
        [.mk "inner" [] [] [] []] [] [])) }
    (.mk "M" [{ name := "innerField", type_ := "inner" }]
      [.mk "inner" [] [] [] []] [] [])
    rfl rfl rfl rfl rfl rfl rfl rfl
    "inner" (.val (some ["object"]) "" .nil .none .none)
    { result := some (.inr (.mk "inner" [] [] [] [])) }
    (.mk "inner" [] [] [] [])
    (by simp [SchemaProps.toList]) rfl rfl

/-- Merging keeps the message's name. -/
theorem mergeMessages_name (em m : ProtoMessage) :
    (mergeMessages em m).name = em.name := rfl

/-- `mergeIntoFirst` never changes the name list. -/
theorem mergeIntoFirst_map_name :
    ∀ (ms : List ProtoMessage) (m : ProtoMessage),
      (mergeIntoFirst ms m).map ProtoMessage.name = ms.map ProtoMessage.name := by
  intro ms m
  induction ms with
  | nil => rfl
  | cons em rest ih =>
      rw [mergeIntoFirst]
      by_cases h : em.name = m.name
      · simp [h, mergeMessages_name]
      · simp [h, ih]

/-- Filtering out the entries whose key already occurs in the list itself
leaves nothing. -/
theorem filter_not_any_self {α} (key : α → String) (l : List α) :
    l.filter (fun f => ¬ l.any (fun ef => key ef = key f)) = [] := by
  rw [List.filter_eq_nil_iff]
  intro f hf
  simp only [List.any_eq_true, decide_eq_true_eq, not_exists, not_and,
    Decidable.not_not, not_forall]
  exact ⟨f, hf, rfl⟩

/-- Merging a message into itself is the identity (every new entry's name is
already taken by the existing copy). -/
theorem mergeMessages_self (m : ProtoMessage) : mergeMessages m m = m := by
  rw [mergeMessages, filter_not_any_self ProtoField.name,
    filter_not_any_self ProtoMessage.name, filter_not_any_self ProtoEnum.name,
    filter_not_any_self ProtoOption.name]
  cases m with
  | mk n fs ms es os => simp [ProtoMessage.name, ProtoMessage.fields,
      ProtoMessage.messages, ProtoMessage.enums, ProtoMessage.options]

/-- Pushing a merge past untouched (differently named) messages. -/
theorem mergeIntoFirst_append_notmem :
    ∀ (ms : List ProtoMessage) (em m : ProtoMessage),
      (∀ x ∈ ms, x.name ≠ m.name) → em.name = m.name →
      mergeIntoFirst (ms ++ [em]) m = ms ++ [mergeMessages em m] := by
  intro ms
  induction ms with
  | nil => intro em m _ hem; simp [mergeIntoFirst, hem]
  | cons x rest ih =>
      intro em m hne hem
      rw [List.cons_append, mergeIntoFirst]
      have hx : x.name ≠ m.name := hne x (List.mem_cons_self _ _)
      simp only [hx, if_false]
      rw [ih em m (fun y hy => hne y (List.mem_cons_of_mem _ hy)) hem,
        List.cons_append]

/-- Membership in a snapshot-filtered append: an element is in
`l1 ++ (l2 filtered against l1's keys)` iff it is an `l1` entry — kept
verbatim — or an `l2` entry whose key is absent from `l1` (so a colliding
`l2` entry never overwrites and never appears). -/
theorem mem_filter_union (key : α → String) (l1 l2 : List α) (x : α) :
    x ∈ l1 ++ l2.filter (fun f => ¬ l1.any (fun ef => key ef = key f)) ↔
      (x ∈ l1 ∨ (x ∈ l2 ∧ key x ∉ l1.map key)) := by
  simp only [List.mem_append, List.mem_filter, List.any_eq_true,
    decide_eq_true_eq, not_exists, not_and, List.mem_map]

/-- A same-named addition merges into the FIRST message of that name: the
list splits as `pre ++ e :: post` with no name hit in `pre`, and only `e`
is replaced (by `mergeMessages e m`). -/
theorem mergeIntoFirst_decomp :
    ∀ (ms : List ProtoMessage) (m : ProtoMessage),
      m.name ∈ ms.map ProtoMessage.name →
      ∃ pre e post,
        ms = pre ++ e :: post ∧ (∀ x ∈ pre, x.name ≠ m.name) ∧
        e.name = m.name ∧
        mergeIntoFirst ms m = pre ++ mergeMessages e m :: post := by
  intro ms
  induction ms with
  | nil => intro m h; simp at h
  | cons em rest ih =>
      intro m hmem
      by_cases h : em.name = m.name
      · refine ⟨[], em, rest, rfl, ?_, h, ?_⟩
        · intro x hx; exact absurd hx (List.not_mem_nil x)
        · rw [mergeIntoFirst, if_pos h]; rfl
      · have hmem' : m.name ∈ rest.map ProtoMessage.name := by
          rw [List.map_cons, List.mem_cons] at hmem
          rcases hmem with h' | h'
          · exact absurd h'.symm h
          · exact h'
        obtain ⟨pre, e, post, hsplit, hpre, hename, hmif⟩ := ih m hmem'
        refine ⟨em :: pre, e, post, ?_, ?_, hename, ?_⟩
        · rw [hsplit, List.cons_append]
        · intro x hx
          rw [List.mem_cons] at hx
          rcases hx with hx | hx
          · rw [hx]; exact h
          · exact hpre x hx
        · rw [mergeIntoFirst, if_neg h, hmif, List.cons_append]

/-- `addMessageToProto` only ever touches `protoFile.messages`. -/
theorem addMessageToProto_eta (c : Converter) (m : ProtoMessage) :
    addMessageToProto c m =
      { c with protoFile.messages :=
          (addMessageToProto c m).protoFile.messages } := by
  rw [addMessageToProto]
  by_cases h : c.protoFile.messages.any (fun em => em.name = m.name) = true
  · simp [h]
  · simp [h]

/-- C4: `addMessageToProto` preserves uniqueness of message names; adding a
message whose name already exists adds no new message; the merged message's
field, nested-message, enum and option lists are each the union of the two
lists keyed by name with the first-seen ENTRY winning on a name collision —
every existing entry is kept verbatim and a colliding incoming entry is
dropped, never overwritten (the membership characterizations are stated on
whole entries, which a last-wins merge would violate); the merge replaces
exactly the first same-named message, leaving all others untouched; the
merge is idempotent; and adding two same-named messages to a file not
containing the name yields exactly one message of that name whose
field-name set is the union of both messages' field names (the union is
symmetric in the two messages, hence independent of the encounter
order). -/
theorem addMessageToProto_dedup :
    (∀ (c : Converter) (m : ProtoMessage),
      (c.protoFile.messages.map ProtoMessage.name).Nodup →
      ((addMessageToProto c m).protoFile.messages.map ProtoMessage.name).Nodup) ∧
    (∀ (c : Converter) (m : ProtoMessage),
      m.name ∈ c.protoFile.messages.map ProtoMessage.name →
      (addMessageToProto c m).protoFile.messages.map ProtoMessage.name =
        c.protoFile.messages.map ProtoMessage.name) ∧
    (∀ (em m : ProtoMessage),
      (mergeMessages em m).name = em.name ∧
      (∀ f : ProtoField, f ∈ (mergeMessages em m).fields ↔
        (f ∈ em.fields ∨
          (f ∈ m.fields ∧ f.name ∉ em.fields.map ProtoField.name))) ∧
      (∀ n : ProtoMessage, n ∈ (mergeMessages em m).messages ↔
        (n ∈ em.messages ∨
          (n ∈ m.messages ∧ n.name ∉ em.messages.map ProtoMessage.name))) ∧
      (∀ e : ProtoEnum, e ∈ (mergeMessages em m).enums ↔
        (e ∈ em.enums ∨
          (e ∈ m.enums ∧ e.name ∉ em.enums.map ProtoEnum.name))) ∧
      (∀ o : ProtoOption, o ∈ (mergeMessages em m).options ↔
        (o ∈ em.options ∨
          (o ∈ m.options ∧ o.name ∉ em.options.map ProtoOption.name)))) ∧
    (∀ (c : Converter) (m : ProtoMessage),
      m.name ∈ c.protoFile.messages.map ProtoMessage.name →
      ∃ pre e post,
        c.protoFile.messages = pre ++ e :: post ∧
        (∀ x ∈ pre, x.name ≠ m.name) ∧ e.name = m.name ∧
        (addMessageToProto c m).protoFile.messages =
          pre ++ mergeMessages e m :: post) ∧
    (∀ (c : Converter) (m : ProtoMessage),
      m.name ∉ c.protoFile.messages.map ProtoMessage.name →
      addMessageToProto (addMessageToProto c m) m = addMessageToProto c m) ∧
    (∀ (c : Converter) (m1 m2 : ProtoMessage),
      m1.name = m2.name →
      m1.name ∉ c.protoFile.messages.map ProtoMessage.name →
      ((addMessageToProto (addMessageToProto c m1) m2).protoFile.messages.map
          ProtoMessage.name).count m1.name = 1 ∧
        ∃ e, e ∈ (addMessageToProto (addMessageToProto c m1) m2).protoFile.messages ∧
          e.name = m1.name ∧
          (∀ fn, fn ∈ e.fields.map ProtoField.name ↔
            (fn ∈ m1.fields.map ProtoField.name ∨
             fn ∈ m2.fields.map ProtoField.name))) := by
  have hany_iff : ∀ (ms : List ProtoMessage) (n : String),
      ms.any (fun em => em.name = n) = true ↔ n ∈ ms.map ProtoMessage.name := by
    intro ms n
    rw [List.any_eq_true]
    constructor
    · rintro ⟨em, hmem, hname⟩
      rw [decide_eq_true_eq] at hname
      exact hname ▸ List.mem_map_of_mem ProtoMessage.name hmem
    · intro h
      rw [List.mem_map] at h
      obtain ⟨em, hmem, hname⟩ := h
      exact ⟨em, hmem, by rw [decide_eq_true_eq]; exact hname⟩
  have happend : ∀ (c : Converter) (m : ProtoMessage),
      m.name ∉ c.protoFile.messages.map ProtoMessage.name →
      (addMessageToProto c m).protoFile.messages =
        c.protoFile.messages ++ [m] := by
    intro c m hnm
    have h1 : c.protoFile.messages.any (fun em => em.name = m.name) = false := by
      rw [← Bool.not_eq_true, hany_iff]
      exact hnm
    rw [addMessageToProto, h1]
    simp
  have hmerge_eq : ∀ (c : Converter) (m1 m2 : ProtoMessage),
      m1.name = m2.name →
      m1.name ∉ c.protoFile.messages.map ProtoMessage.name →
      (addMessageToProto (addMessageToProto c m1) m2).protoFile.messages =
        c.protoFile.messages ++ [mergeMessages m1 m2] := by
    intro c m1 m2 heq hnm
    have hstep1 := happend c m1 hnm
    have h2 : (addMessageToProto c m1).protoFile.messages.any
        (fun em => em.name = m2.name) = true := by
      rw [hany_iff, hstep1, List.map_append]
      apply List.mem_append_right
      rw [← heq]
      exact List.mem_singleton_self _
    rw [addMessageToProto, h2]
    simp only [if_true]
    have hne : ∀ x ∈ c.protoFile.messages, x.name ≠ m2.name := by
      intro x hx hcontra
      exact hnm (heq ▸ hcontra ▸ List.mem_map_of_mem ProtoMessage.name hx)
    rw [hstep1, mergeIntoFirst_append_notmem _ _ _ hne heq]
  refine ⟨?_, ?_, ?_, ?_, ?_, ?_⟩
  · intro c m hnodup
    rw [addMessageToProto]
    by_cases h : c.protoFile.messages.any (fun em => em.name = m.name) = true
    · simp only [h, if_true]
      rw [mergeIntoFirst_map_name]
      exact hnodup
    · rw [if_neg h]
      have hnm : m.name ∉ c.protoFile.messages.map ProtoMessage.name := by
        rw [← hany_iff]; exact h
      simp only [List.map_append, List.map_cons, List.map_nil]
      rw [List.nodup_append]
      refine ⟨hnodup, List.nodup_singleton _, ?_⟩
      intro a ha hb
      rw [List.mem_singleton] at hb
      exact hnm (hb ▸ ha)
  · intro c m hmem
    rw [addMessageToProto]
    have h : c.protoFile.messages.any (fun em => em.name = m.name) = true :=
      (hany_iff _ _).mpr hmem
    simp only [h, if_true]
    rw [mergeIntoFirst_map_name]
  · intro em m
    exact ⟨rfl,
      fun f => mem_filter_union ProtoField.name em.fields m.fields f,
      fun n => mem_filter_union ProtoMessage.name em.messages m.messages n,
      fun e => mem_filter_union ProtoEnum.name em.enums m.enums e,
      fun o => mem_filter_union ProtoOption.name em.options m.options o⟩
  · intro c m hmem
    have hany : c.protoFile.messages.any (fun em => em.name = m.name) = true :=
      (hany_iff _ _).mpr hmem
    obtain ⟨pre, e, post, hsplit, hpre, hename, hmif⟩ :=
      mergeIntoFirst_decomp c.protoFile.messages m hmem
    refine ⟨pre, e, post, hsplit, hpre, hename, ?_⟩
    rw [addMessageToProto, if_pos hany, hmif]
  · intro c m hnm
    have e2 : (addMessageToProto (addMessageToProto c m) m).protoFile.messages =
        (addMessageToProto c m).protoFile.messages := by
      rw [hmerge_eq c m m rfl hnm, mergeMessages_self, happend c m hnm]
    calc addMessageToProto (addMessageToProto c m) m
        = { addMessageToProto c m with protoFile.messages :=
              (addMessageToProto (addMessageToProto c m) m).protoFile.messages } :=
          addMessageToProto_eta _ _
      _ = addMessageToProto c m := by rw [e2]
  · intro c m1 m2 heq hnm
    have h2 := hmerge_eq c m1 m2 heq hnm
    constructor
    · rw [h2]
      simp only [List.map_append, List.map_cons, List.map_nil,
        mergeMessages_name, List.count_append]
      have hz : (c.protoFile.messages.map ProtoMessage.name).count m1.name = 0 :=
        List.count_eq_zero_of_not_mem hnm
      rw [hz]
      simp
    · refine ⟨mergeMessages m1 m2, ?_, mergeMessages_name m1 m2, ?_⟩
      · rw [h2]
        simp
      · intro fn
        show fn ∈ ((mergeMessages m1 m2).fields.map ProtoField.name) ↔ _
        rw [show (mergeMessages m1 m2).fields =
              m1.fields ++ m2.fields.filter
                (fun f => ¬ m1.fields.any (fun ef => ef.name = f.name)) from rfl]
        simp only [List.map_append, List.mem_append, List.mem_map,
          List.mem_filter, List.any_eq_true, decide_eq_true_eq, not_exists,
          not_and, Decidable.not_not, not_forall]
        constructor
        · rintro (⟨f, hf, rfl⟩ | ⟨f, ⟨hf, _⟩, rfl⟩)
          · exact Or.inl ⟨f, hf, rfl⟩
          · exact Or.inr ⟨f, hf, rfl⟩
        · rintro (⟨f, hf, rfl⟩ | ⟨f, hf, rfl⟩)
          · exact Or.inl ⟨f, hf, rfl⟩
          · by_cases hin : ∃ g ∈ m1.fields, g.name = f.name
            · obtain ⟨g, hg, hgname⟩ := hin
              exact Or.inl ⟨g, hg, hgname⟩
            · refine Or.inr ⟨f, ⟨hf, ?_⟩, rfl⟩
              intro g hg hcontra
              exact hin ⟨g, hg, hcontra⟩

/-- C4 witness: two same-named one-field messages merge into exactly one,
and the second addition merges into the first (and only) occurrence in
place. -/
theorem addMessageToProto_dedup_witness :
    ((addMessageToProto (addMessageToProto (newProtoConverter "p") mX1)
        mX2).protoFile.messages.map ProtoMessage.name).count "X" = 1 ∧
    (∃ pre e post,
      (addMessageToProto (newProtoConverter "p") mX1).protoFile.messages =
        pre ++ e :: post ∧
      (∀ x ∈ pre, x.name ≠ mX2.name) ∧ e.name = mX2.name ∧
      (addMessageToProto (addMessageToProto (newProtoConverter "p") mX1)
          mX2).protoFile.messages = pre ++ mergeMessages e mX2 :: post) :=
  ⟨(addMessageToProto_dedup.2.2.2.2.2 (newProtoConverter "p") mX1 mX2
      rfl (by simp [newProtoConverter])).1,
   addMessageToProto_dedup.2.2.2.1
      (addMessageToProto (newProtoConverter "p") mX1) mX2 (by decide)⟩

/-- `AddProtoImport` never touches the message list. -/
theorem addProtoImport_messages (c : Converter) (f : String) :
    (addProtoImport c f).protoFile.messages = c.protoFile.messages := by
  rw [addProtoImport]
  by_cases h : f ∈ c.protoFile.imports
  · rw [if_pos h]
  · rw [if_neg h]

/-- `AddProtoImport` on an import already present is the identity. -/
theorem addProtoImport_mem (c : Converter) (f : String)
    (h : f ∈ c.protoFile.imports) : addProtoImport c f = c := by
  rw [addProtoImport, if_pos h]

/-- `AddProtoImport` on an absent import appends it. -/
theorem addProtoImport_not_mem (c : Converter) (f : String)
    (h : f ∉ c.protoFile.imports) :
    (addProtoImport c f).protoFile.imports = c.protoFile.imports ++ [f] := by
  rw [addProtoImport, if_neg h]

/-- An all-empty-operations fold is the identity once the empty import is
present. -/
theorem c8Fold_already_imported :
    ∀ (ops : List Operation) (c : Converter),
      (∀ op ∈ ops, op.requestBody = none ∧ op.parameters = []) →
      emptyProtoFile ∈ c.protoFile.imports →
      c8Fold c ops = .ok c := by
  intro ops
  induction ops with
  | nil => intro c _ _; rfl
  | cons op rest ih =>
      intro c hall hmem
      obtain ⟨hbody, hparams⟩ := hall op (List.mem_cons_self _ _)
      rw [c8Fold]
      have hreq : generateRequestMessage c op =
          .ok (addProtoImport c emptyProtoFile, emptyProtoFile) := by
        rw [generateRequestMessage, hbody, hparams]
        simp
      rw [hreq, addProtoImport_mem c _ hmem]
      simp only [Bind.bind, Except.bind]
      exact ih c (fun o ho => hall o (List.mem_cons_of_mem _ ho)) hmem

/-- C8: an operation with no request body and no parameters short-circuits
to the `google.protobuf.empty` input type, generating no message; and over
any number of such operations the corresponding entry ends up in the
list of imports exactly once. -/
theorem empty_request_shortcut :
    (∀ (c : Converter) (op : Operation),
      op.requestBody = none → op.parameters = [] →
      generateRequestMessage c op =
          .ok (addProtoImport c emptyProtoFile, emptyProtoFile) ∧
        (addProtoImport c emptyProtoFile).protoFile.messages =
          c.protoFile.messages) ∧
    (∀ (c : Converter) (ops : List Operation),
      (∀ op ∈ ops, op.requestBody = none ∧ op.parameters = []) →
      ops ≠ [] → emptyProtoFile ∉ c.protoFile.imports →
      ∃ c', c8Fold c ops = .ok c' ∧
        c'.protoFile.imports.count emptyProtoFile = 1 ∧
        c'.protoFile.messages = c.protoFile.messages) := by
  constructor
  · intro c op hbody hparams
    constructor
    · rw [generateRequestMessage, hbody, hparams]
      simp
    · exact addProtoImport_messages c emptyProtoFile
  · intro c ops hall hne hnotmem
    cases ops with
    | nil => exact absurd rfl hne
    | cons op rest =>
        obtain ⟨hbody, hparams⟩ := hall op (List.mem_cons_self _ _)
        have hreq : generateRequestMessage c op =
            .ok (addProtoImport c emptyProtoFile, emptyProtoFile) := by
          rw [generateRequestMessage, hbody, hparams]
          simp
        have himp := addProtoImport_not_mem c emptyProtoFile hnotmem
        have hmem1 : emptyProtoFile ∈
            (addProtoImport c emptyProtoFile).protoFile.imports := by
          rw [himp]
          exact List.mem_append_right _ (List.mem_singleton_self _)
        refine ⟨addProtoImport c emptyProtoFile, ?_, ?_, ?_⟩
        · rw [c8Fold, hreq]
          simp only [Bind.bind, Except.bind]
          exact c8Fold_already_imported rest _
            (fun o ho => hall o (List.mem_cons_of_mem _ ho)) hmem1
        · rw [himp, List.count_append,
            List.count_eq_zero_of_not_mem hnotmem]
          simp
        · exact addProtoImport_messages c emptyProtoFile

/-- C8 witness: two empty operations, one import. -/
theorem empty_request_shortcut_witness :
    ∃ c', c8Fold (newProtoConverter "p")
        [{ operationID := "a" }, { operationID := "b" }] = .ok c' ∧
      c'.protoFile.imports.count emptyProtoFile = 1 ∧
      c'.protoFile.messages = (newProtoConverter "p").protoFile.messages :=
  empty_request_shortcut.2 (newProtoConverter "p")
    [{ operationID := "a" }, { operationID := "b" }]
    (by intro op hop
        rw [List.mem_cons, List.mem_singleton] at hop
        rcases hop with h | h
        · rw [h]; exact ⟨rfl, rfl⟩
        · rw [h]; exact ⟨rfl, rfl⟩)
    (by simp) (by simp [newProtoConverter])

/-- `updFM` with a message's own components is the identity. -/
theorem updFM_self (m : ProtoMessage) : m.updFM m.fields m.messages = m := by
  cases m with
  | mk n fs ms es os => rfl

/-- The wrapper loop equals the claim-side fold applied to the longest
content-ful iteration-order prefix of the responses. -/
theorem wrapperLoop_spec :
    ∀ (rs : List (String × ResponseRef)) (op : Operation) (c : Converter)
      (w : ProtoMessage) (flag : Bool),
      wrapperLoop op c w flag rs =
        match c2WrapperFields op c
            (rs.takeWhile (fun p => !(contentless p.2))) with
        | .error e => .error e
        | .ok (c', fs) =>
            .ok (c', w.updFM (w.fields ++ fs) w.messages,
              if (rs.takeWhile (fun p => !(contentless p.2))).isEmpty then flag
              else false) := by
  intro rs
  induction rs with
  | nil =>
      intro op c w flag
      rw [wrapperLoop]
      simp [c2WrapperFields, updFM_self]
  | cons hd rest ih =>
      intro op c w flag
      rw [show hd = (hd.1, hd.2) from rfl, wrapperLoop]
      by_cases hcl : contentless hd.2 = true
      · rw [if_pos hcl]
        rw [List.takeWhile_cons]
        simp only [hcl, Bool.not_true, Bool.false_eq_true, if_false]
        simp [c2WrapperFields, updFM_self]
      · rw [if_neg hcl]
        rw [List.takeWhile_cons]
        have hcl0 : contentless hd.2 = false := Bool.eq_false_iff.mpr hcl
        have hcl' : (!contentless hd.2) = true := by rw [hcl0]; rfl
        simp only [hcl', if_true]
        cases hpsr : processSingleResponse c hd.1 hd.2 op with
        | error e =>
            simp only [Bind.bind, Except.bind, hpsr]
            rw [c2WrapperFields]
            simp only [Bind.bind, Except.bind, hpsr]
        | ok out =>
            obtain ⟨c1, messageName⟩ := out
            simp only [Bind.bind, Except.bind, hpsr]
            rw [ih]
            rw [c2WrapperFields]
            simp only [Bind.bind, Except.bind, hpsr]
            cases hfold : c2WrapperFields op c1
                (rest.takeWhile (fun p => !(contentless p.2))) with
            | error e => rfl
            | ok out2 =>
                obtain ⟨c2, fs⟩ := out2
                simp [ProtoMessage.updFM, ProtoMessage.name,
                  ProtoMessage.fields, ProtoMessage.messages,
                  ProtoMessage.enums, ProtoMessage.options, List.append_assoc]

/-- C2 counterexample: `opC2` has two responses, not all content-less, yet
`generateResponseMessage` returns `google.protobuf.empty` and builds no
wrapper message at all (the loop breaks at the first content-less response),
contradicting "one field per status code" and "Empty exactly when every
response is content-less". -/
theorem response_wrapper_counterexample :
    (opC2.responses.map List.length = some 2) ∧
    ¬ (∀ p ∈ [("200", ({ ref := "", value := some { content := [] } } : ResponseRef)),
              ("404", ({ ref := "#/components/responses/R", value := none } : ResponseRef))],
          contentless p.2 = true) ∧
    generateResponseMessage (newProtoConverter "p") opC2 =
      .ok (addProtoImport (newProtoConverter "p") emptyProtoFile,
        emptyProtoFile) ∧
    (addProtoImport (newProtoConverter "p") emptyProtoFile).protoFile.messages
      = [] ∧
    emptyProtoFile ≠ opC2.operationID := by
  refine ⟨rfl, ?_, rfl, rfl, by decide⟩
  intro h
  have := h ("404", { ref := "#/components/responses/R", value := none })
    (by simp)
  simp [contentless] at this

/-- C2 (amended): with two or more responses, the wrapper loop scans the
responses in iteration order and stops at the first content-less one; the
processed prefix contributes one `response_<code>` field per status code,
typed with that status's per-status message name; `google.protobuf.empty`
replaces the wrapper exactly when that prefix is empty (in particular when
every response is content-less, but also whenever the first response in
iteration order is content-less). -/
theorem response_wrapper_amended
    (c : Converter) (op : Operation) (rs : List (String × ResponseRef))
    (hresp : op.responses = some rs) (hlen : rs.length ≠ 1) :
    ((rs.takeWhile (fun p => !(contentless p.2))) = [] →
      generateResponseMessage c op =
        .ok (addProtoImport c emptyProtoFile, emptyProtoFile)) ∧
    (∀ c1 fs,
      c2WrapperFields op c (rs.takeWhile (fun p => !(contentless p.2))) =
        .ok (c1, fs) →
      (rs.takeWhile (fun p => !(contentless p.2))) ≠ [] →
      generateResponseMessage c op =
        .ok (addMessageToProto c1 (.mk op.operationID fs [] [] []),
          op.operationID)) := by
  constructor
  · intro hempty
    rw [generateResponseMessage, hresp]
    simp only [Bind.bind, Except.bind]
    rw [if_neg hlen, wrapperLoop_spec, hempty]
    simp [c2WrapperFields, updFM_self]
  · intro c1 fs hfold hne
    rw [generateResponseMessage, hresp]
    simp only [Bind.bind, Except.bind]
    rw [if_neg hlen, wrapperLoop_spec, hfold]
    have hifneg : ¬((rs.takeWhile (fun p => !(contentless p.2))).isEmpty = true) := by
      rw [List.isEmpty_iff]; exact hne
    simp [hifneg, ProtoMessage.updFM, ProtoMessage.name, ProtoMessage.fields,
      ProtoMessage.messages, ProtoMessage.enums, ProtoMessage.options]

/-- C2 witness: two content-ful (`$ref`) responses produce the wrapper with
one field per status code. -/
theorem response_wrapper_amended_witness :
    generateResponseMessage (newProtoConverter "q")
        { operationID := "op2",
          responses := some [("200", { ref := "#/r/A", value := none }),
                             ("404", { ref := "#/r/B", value := none })] } =
      .ok (addMessageToProto (newProtoConverter "q")
          (.mk "op2" [{ name := "response_200", type_ := "A" },
                      { name := "response_404", type_ := "B" }] [] [] []),
        "op2") :=
  (response_wrapper_amended (newProtoConverter "q")
    { operationID := "op2",
      responses := some [("200", { ref := "#/r/A", value := none }),
                         ("404", { ref := "#/r/B", value := none })] }
    [("200", { ref := "#/r/A", value := none }),
     ("404", { ref := "#/r/B", value := none })]
    rfl (by decide)).2
    (newProtoConverter "q")
    [{ name := "response_200", type_ := "A" },
     { name := "response_404", type_ := "B" }]
    rfl (by intro h; cases h)

/-- C3 counterexample: `opC3` has a request body, yet
`generateRequestMessage` returns the referenced name `Foo` directly — no
`<operationId>Request` message is assembled at all (parameters would be
ignored too), contradicting "builds one request message named
`<operationId>Request` ... for every operation that has a request body or at
least one parameter". -/
theorem request_ref_counterexample :
    opC3.requestBody.isSome = true ∧
    generateRequestMessage (newProtoConverter "p") opC3 =
      .ok (newProtoConverter "p", "Foo") ∧
    "Foo" ≠ opC3.operationID ++ "Request" ∧
    (newProtoConverter "p").protoFile.messages = [] :=
  ⟨rfl, rfl, by decide, rfl⟩

/-- `applyConvOutDedup` keeps the message name. -/
theorem applyConvOutDedup_name (c : Converter) (msg : ProtoMessage)
    (out : ConvOut) : ((applyConvOutDedup c msg out).2).name = msg.name := by
  rw [applyConvOutDedup]
  cases out.result with
  | none => rfl
  | some fm => cases fm with
      | inl f => rfl
      | inr m => rfl

/-- The media loop keeps the message name. -/
theorem convertMediaEntries_name :
    ∀ (entries : List (String × MediaType)) (mn : String) (c : Converter)
      (msg : ProtoMessage) (c' : Converter) (msg' : ProtoMessage),
      convertMediaEntries mn c msg entries = .ok (c', msg') →
      msg'.name = msg.name := by
  intro entries
  induction entries with
  | nil =>
      intro mn c msg c' msg' h
      rw [convertMediaEntries] at h
      injection h with h
      rw [show msg' = (c', msg').2 from rfl, ← h]
  | cons hd tl ih =>
      intro mn c msg c' msg' h
      rw [show hd = (hd.1, hd.2) from rfl, convertMediaEntries] at h
      cases hsch : hd.2.schema with
      | none =>
          rw [hsch] at h
          exact ih mn c msg c' msg' h
      | some sr =>
          rw [hsch] at h
          simp only [Bind.bind, Except.bind] at h
          cases hconv : convertSchema sr (sanitizeName (mn ++ hd.1)) with
          | error e => rw [hconv] at h; cases h
          | ok out =>
              rw [hconv] at h
              have := ih mn (applyConvOutDedup c msg out).1
                (applyConvOutDedup c msg out).2 c' msg' h
              rw [this, applyConvOutDedup_name]
  
/-- The parameter loop keeps the message name. -/
theorem convertParams_name :
    ∀ (params : List Param) (c : Converter) (msg : ProtoMessage)
      (c' : Converter) (msg' : ProtoMessage),
      convertParams c msg params = .ok (c', msg') →
      msg'.name = msg.name := by
  intro params
  induction params with
  | nil =>
      intro c msg c' msg' h
      rw [convertParams] at h
      injection h with h
      rw [show msg' = (c', msg').2 from rfl, ← h]
  | cons p tl ih =>
      intro c msg c' msg' h
      rw [convertParams] at h
      cases hsch : p.schema with
      | none =>
          rw [hsch] at h
          exact ih c msg c' msg' h
      | some sr =>
          rw [hsch] at h
          simp only [Bind.bind, Except.bind] at h
          cases hconv : convertSchema sr p.name with
          | error e => rw [hconv] at h; cases h
          | ok out =>
              rw [hconv] at h
              have := ih (applyConvOutDedup c msg out).1
                (applyConvOutDedup c msg out).2 c' msg' h
              rw [this, applyConvOutDedup_name]

/-- C3 (amended): for an operation with a request body or parameters whose
request body is *not* a `$ref` (a `$ref` body short-circuits to the
referenced name, see the counterexample), `generateRequestMessage` assembles
the single `<operationId>Request` message from the body media types and the
parameters; if the assembled message has no fields and no nested messages it
is discarded and `""` returned without error, otherwise it is registered via
`addMessageToProto` and its name returned. -/
theorem request_message_amended
    (c : Converter) (op : Operation)
    (hbr : ∀ rb, op.requestBody = some rb → rb.ref = "")
    (hne : ¬ (op.requestBody = none ∧ op.parameters = [])) :
    (∀ c2 m2, c3Assemble c op = .ok (c2, m2) →
      m2.name = op.operationID ++ "Request" ∧
      generateRequestMessage c op =
        (if m2.fields.isEmpty && m2.messages.isEmpty then .ok (c2, "")
         else .ok (addMessageToProto c2 m2, m2.name))) ∧
    (∀ e, c3Assemble c op = .error e →
      generateRequestMessage c op = .error e) := by
  obtain ⟨oid, tags, params, rqb, resp⟩ := op
  have key : ∀ (step : Except String (Converter × ProtoMessage)),
      (∀ c1 m1, step = .ok (c1, m1) → m1.name = oid ++ "Request") →
      generateRequestMessage c ⟨oid, tags, params, rqb, resp⟩ =
        (do
          let r ← step
          finishRequest r.1 r.2 ⟨oid, tags, params, rqb, resp⟩) →
      c3Assemble c ⟨oid, tags, params, rqb, resp⟩ =
        (do
          let r ← step
          convertParams r.1 r.2 params) →
      (∀ c2 m2, c3Assemble c ⟨oid, tags, params, rqb, resp⟩ = .ok (c2, m2) →
        m2.name = oid ++ "Request" ∧
        generateRequestMessage c ⟨oid, tags, params, rqb, resp⟩ =
          (if m2.fields.isEmpty && m2.messages.isEmpty then .ok (c2, "")
           else .ok (addMessageToProto c2 m2, m2.name))) ∧
      (∀ e, c3Assemble c ⟨oid, tags, params, rqb, resp⟩ = .error e →
        generateRequestMessage c ⟨oid, tags, params, rqb, resp⟩ = .error e) := by
    intro step hstepname hgen hassEq
    constructor
    · intro c2 m2 hass
      rw [hassEq] at hass
      cases hstep : step with
      | error e =>
          rw [hstep] at hass
          simp only [Bind.bind, Except.bind] at hass
          cases hass
      | ok r =>
          obtain ⟨c1, m1⟩ := r
          rw [hstep] at hass
          simp only [Bind.bind, Except.bind] at hass
          have hm2 : m2.name = oid ++ "Request" := by
            rw [convertParams_name params c1 m1 c2 m2 hass]
            exact hstepname c1 m1 hstep
          refine ⟨hm2, ?_⟩
          rw [hgen, hstep]
          simp only [Bind.bind, Except.bind]
          rw [finishRequest]
          simp only [Bind.bind, Except.bind, hass]
    · intro e hass
      rw [hassEq] at hass
      cases hstep : step with
      | error e2 =>
          rw [hstep] at hass
          simp only [Bind.bind, Except.bind] at hass
          injection hass with hass
          rw [hgen, hstep]
          simp only [Bind.bind, Except.bind]
          rw [hass]
      | ok r =>
          obtain ⟨c1, m1⟩ := r
          rw [hstep] at hass
          simp only [Bind.bind, Except.bind] at hass
          rw [hgen, hstep]
          simp only [Bind.bind, Except.bind]
          rw [finishRequest]
          simp only [Bind.bind, Except.bind, hass]
  cases rqb with
  | none =>
      cases params with
      | nil => exact absurd ⟨rfl, rfl⟩ hne
      | cons p ps =>
          exact key (.ok (c, .mk (oid ++ "Request") [] [] [] []))
            (fun c1 m1 h => by
              injection h with h
              rw [show m1 = (c1, m1).2 from rfl, ← h]
              rfl)
            rfl rfl
  | some rb =>
      obtain ⟨r, v⟩ := rb
      have href : r = "" := hbr ⟨r, v⟩ rfl
      subst href
      cases v with
      | none =>
          exact key (.ok (c, .mk (oid ++ "Request") [] [] [] []))
            (fun c1 m1 h => by
              injection h with h
              rw [show m1 = (c1, m1).2 from rfl, ← h]
              rfl)
            rfl rfl
      | some body =>
          exact key (convertMediaEntries (oid ++ "Request") c
              (.mk (oid ++ "Request") [] [] [] []) body.content)
            (fun c1 m1 h => convertMediaEntries_name body.content _ c _ c1 m1 h)
            rfl rfl

/-- C3 witness: one integer parameter assembles into `w3Request`. -/
theorem request_message_amended_witness :
    (ProtoMessage.mk "w3Request" [{ name := "id", type_ := "int32" }] [] []
      []).name = "w3" ++ "Request" ∧
    generateRequestMessage (newProtoConverter "p")
        { operationID := "w3",
          parameters :=
            [⟨"id", some (.val (some ["integer"]) "int32" .nil .none .none)⟩] } =
      (if (ProtoMessage.mk "w3Request" [{ name := "id", type_ := "int32" }]
            [] [] []).fields.isEmpty &&
          (ProtoMessage.mk "w3Request" [{ name := "id", type_ := "int32" }]
            [] [] []).messages.isEmpty then
        .ok (newProtoConverter "p", "")
       else
        .ok (addMessageToProto (newProtoConverter "p")
            (ProtoMessage.mk "w3Request" [{ name := "id", type_ := "int32" }]
              [] [] []),
          (ProtoMessage.mk "w3Request" [{ name := "id", type_ := "int32" }]
            [] [] []).name)) :=
  (request_message_amended (newProtoConverter "p")
    { operationID := "w3",
      parameters :=
        [⟨"id", some (.val (some ["integer"]) "int32" .nil .none .none)⟩] }
    (by intro rb h; cases h)
    (by intro h; cases h.2)).1
    (newProtoConverter "p")
    (ProtoMessage.mk "w3Request" [{ name := "id", type_ := "int32" }] [] [] [])
    rfl

/-- The depth-first pre-pass diverges on each half of the cycle: for every
fuel the expansion of `[A]` (and `[B]`) exhausts the budget. -/
theorem addSchemasAux_cycle_aux :
    ∀ (fuel : Nat) (st : GenState) (d : OADocument),
      addSchemasAux cycFd fuel st d [descA] = none ∧
      addSchemasAux cycFd fuel st d [descB] = none := by
  intro fuel
  induction fuel with
  | zero => intro st d; exact ⟨rfl, rfl⟩
  | succ n ih =>
      intro st d
      constructor
      · have hB := (ih st d).2
        rw [addSchemasAux]
        simp only [show structFieldStructs cycFd descA = [descB] from rfl,
          List.isEmpty_cons, Bool.false_eq_true, if_false, hB]
      · have hA := (ih st d).1
        rw [addSchemasAux]
        simp only [show structFieldStructs cycFd descB = [descA] from rfl,
          List.isEmpty_cons, Bool.false_eq_true, if_false, hA]

/-- C1: on the cyclic pair `A ↔ B` the struct-expansion recursion never
terminates: `addSchemasForStructsToDocument` over the file's structs
exhausts every fuel bound (the depth-first pre-pass recurses into
struct-typed fields before any generated/required check), and therefore the
`BuildDocument` worklist loop diverges whenever `requiredSchemas` is
non-empty — no pair of mutually-referencing schemas is ever produced. -/
theorem cyclic_struct_expansion_diverges :
    (∀ (fuel : Nat) (st : GenState) (d : OADocument),
      addSchemasAux cycFd fuel st d cycFd.structs = none) ∧
    (∀ (fuel : Nat) (st : GenState) (d : OADocument),
      st.requiredSchemas ≠ [] → buildDocumentLoop cycFd fuel st d = none) := by
  have hAB : ∀ (fuel : Nat) (st : GenState) (d : OADocument),
      addSchemasAux cycFd fuel st d [descA, descB] = none := by
    intro fuel st d
    cases fuel with
    | zero => rfl
    | succ n =>
        have hB := (addSchemasAux_cycle_aux n st d).2
        rw [addSchemasAux]
        simp only [show structFieldStructs cycFd descA = [descB] from rfl,
          List.isEmpty_cons, Bool.false_eq_true, if_false, hB]
  constructor
  · intro fuel st d
    exact hAB fuel st d
  · intro fuel
    induction fuel with
    | zero => intro st d _; rfl
    | succ n ih =>
        intro st d hne
        rw [buildDocumentLoop]
        have hot : st.requiredSchemas.isEmpty = false := by
          rw [List.isEmpty_eq_false]
          exact hne
        simp only [hot, Bool.false_eq_true, if_false,
          show cycFd.structs = [descA, descB] from rfl, hAB n st d]

/-- C1 witness: a concrete diverging run of the worklist loop. -/
theorem cyclic_struct_expansion_diverges_witness :
    buildDocumentLoop cycFd 5
        { requiredSchemas := ["A"], generatedSchemas := [] } { schemas := [] } =
      none :=
  cyclic_struct_expansion_diverges.2 5
    { requiredSchemas := ["A"], generatedSchemas := [] } { schemas := [] }
    (by simp)

/-- C9: the request body of every generated operation is exactly the
claim's: omitted entirely for GET/HEAD/DELETE regardless of the
`api.body`/`api.form`/`api.raw_body` annotations on the input struct's
fields, and otherwise the parallel `application/json` (from `api.body`),
`multipart/form-data` + `application/x-www-form-urlencoded` (from
`api.form`) and `text/plain` (from `api.raw_body`) media entries for
whichever of those schemas are non-empty. -/
theorem request_body_by_method
    (fd : FileDesc) (st : GenState) (d : OADocument)
    (methodName description operationID tagName path host : String)
    (input output : StructDesc) :
    (buildOperation fd st d methodName description operationID tagName
        path host input output).2.2.1.requestBody =
      c9RequestBody fd (buildParamsLoop fd st input.fields).1 methodName
        input := by
  rcases hp : buildParamsLoop fd st input.fields with ⟨st1, params⟩
  rcases hrb : buildRequestBody fd st1 methodName input with ⟨rb, st2⟩
  rcases hr : getResponseForStruct fd st2 d output with ⟨st3, d1, nm, hdrs, ct⟩
  simp only [buildOperation, hp, hrb, hr]
  by_cases hm : methodName = httpMethodGet ∨ methodName = httpMethodHead ∨
      methodName = httpMethodDelete
  · simp only [c9RequestBody, if_pos hm]
    have hcond : ¬ (methodName ≠ httpMethodGet ∧ methodName ≠ httpMethodHead ∧
        methodName ≠ httpMethodDelete) := by
      rcases hm with h | h | h
      · exact fun hc => hc.1 h
      · exact fun hc => hc.2.1 h
      · exact fun hc => hc.2.2 h
    rw [buildRequestBody, if_neg hcond] at hrb
    exact (Prod.mk.injEq _ _ _ _ ▸ hrb).1.symm
  · have hcond : methodName ≠ httpMethodGet ∧ methodName ≠ httpMethodHead ∧
        methodName ≠ httpMethodDelete := by
      push_neg at hm
      exact hm
    simp only [c9RequestBody, if_neg hm]
    rw [buildRequestBody, if_pos hcond] at hrb
    rcases hb : getSchemaByOption fd st1 input apiBody with ⟨bs, s1⟩
    rcases hf : getSchemaByOption fd s1 input apiForm with ⟨fs, s2⟩
    rcases hw : getSchemaByOption fd s2 input apiRawBody with ⟨ws, s3⟩
    simp only [hb, hf, hw] at hrb
    simp only [c9Content, hb, hf, hw]
    have h1 := congrArg Prod.fst hrb
    rw [apply_ite Prod.fst] at h1
    exact h1.symm

/-- The field loop equals the claim-side enumerated rendering. -/
theorem c7FieldsEnum_spec (ind : String) :
    ∀ (l : List ProtoField) (i : Nat),
      encodeFieldsFrom ind l i = c7FieldsEnum ind (List.enumFrom i l) := by
  intro l
  induction l with
  | nil => intro i; rfl
  | cons f rest ih =>
      intro i
      rw [encodeFieldsFrom, List.enumFrom, c7FieldsEnum, ih, c7FieldLine]

/-- Each message block renders as the claim describes (with position-based
field numbering). -/
theorem c7Message_spec (m : ProtoMessage) (lvl : Nat) :
    encodeMessage m lvl = c7Message m lvl := by
  cases m with
  | mk n fs ms es os =>
      rw [encodeMessage, c7Message]
      simp only [ProtoMessage.name, ProtoMessage.fields, ProtoMessage.messages,
        ProtoMessage.options, c7Fields, c7FieldsEnum_spec]

/-- The message section equals the claim-side one. -/
theorem c7Messages2_spec :
    ∀ (l : List ProtoMessage) (lvl : Nat),
      encodeMessagesList l lvl = c7Messages2 l lvl := by
  intro l
  induction l with
  | nil => intro lvl; rfl
  | cons m rest ih =>
      intro lvl
      rw [encodeMessagesList, c7Messages2, ih, c7Message_spec]

/-- C7 counterexample: the source renderer emits imports in their insertion
order, so a file whose imports are out of alphabetical order renders
differently from the claim's sorted-imports layout. -/
theorem proto_render_imports_counterexample :
    ConvertToProtoFile pf7 ≠ c7Render pf7 := by
  have hs : sortByKey (fun s : String => s) pf7.imports =
      ["a.proto", "b.proto"] := rfl
  simp only [c7Render, hs]
  decide

/-- C7: amended rendering layout — `ConvertToProtoFile` emits the syntax
line, the package declaration, the imports IN INSERTION ORDER (not sorted),
the file-level options, the messages sorted by name with each message's
fields numbered sequentially starting at 1 in sorted-by-name order (and
method/field options rendered as `option (name) = value;`, map values as an
indented block with sorted keys, per the shared option encoders), then the
services sorted by name. -/
theorem proto_render_layout_amended (pf : ProtoFile) :
    ConvertToProtoFile pf = c7AmendedRender pf := by
  rw [ConvertToProtoFile, c7AmendedRender, c7Messages2_spec]

/-- Equal character lists make equal strings. -/
theorem string_data_eq : ∀ {s t : String}, s.data = t.data → s = t
  | ⟨_⟩, ⟨_⟩, h => by cases h; rfl

/-- Inserting permutes to consing. -/
theorem insertByKey_perm (key : α → String) (x : α) :
    ∀ l : List α, (insertByKey key x l).Perm (x :: l) := by
  intro l
  induction l with
  | nil => exact List.Perm.refl _
  | cons y ys ih =>
      rw [insertByKey]
      by_cases c : (key x).data ≤ (key y).data
      · rw [if_pos c]
      · rw [if_neg c]
        exact (ih.cons y).trans (List.Perm.swap x y ys)

/-- The insertion sort permutes its input. -/
theorem sortByKey_perm (key : α → String) :
    ∀ l : List α, (sortByKey key l).Perm l := by
  intro l
  induction l with
  | nil => exact List.Perm.refl _
  | cons a t ih =>
      have h : sortByKey key (a :: t) = insertByKey key a (sortByKey key t) :=
        rfl
      rw [h]
      exact (insertByKey_perm key a _).trans (ih.cons a)

/-- Inserting preserves sortedness by the key order. -/
theorem insertByKey_sorted (key : α → String) (x : α) :
    ∀ l : List α, l.Sorted (keyLe key) →
      (insertByKey key x l).Sorted (keyLe key) := by
  intro l
  induction l with
  | nil => intro _; simp [insertByKey]
  | cons y ys ih =>
      intro hs
      rw [List.sorted_cons] at hs
      rw [insertByKey]
      by_cases c : (key x).data ≤ (key y).data
      · rw [if_pos c, List.sorted_cons]
        constructor
        · intro b hb
          rw [List.mem_cons] at hb
          rcases hb with hb | hb
          · rw [hb]; exact c
          · exact le_trans c (hs.1 b hb)
        · rw [List.sorted_cons]; exact hs
      · rw [if_neg c, List.sorted_cons]
        constructor
        · intro b hb
          have hb' : b ∈ x :: ys := (insertByKey_perm key x ys).subset hb
          rw [List.mem_cons] at hb'
          rcases hb' with hb' | hb'
          · rw [hb']; exact le_of_not_le c
          · exact hs.1 b hb'
        · exact ih hs.2

/-- The insertion sort sorts by the key order. -/
theorem sortByKey_sorted (key : α → String) :
    ∀ l : List α, (sortByKey key l).Sorted (keyLe key) := by
  intro l
  induction l with
  | nil => exact List.sorted_nil
  | cons a t ih => exact insertByKey_sorted key a _ ih

/-- Two key-sorted permutations of each other with duplicate-free keys are
equal. -/
theorem sorted_perm_nodupkeys_eq (key : α → String) :
    ∀ (l1 l2 : List α), l1.Perm l2 → l1.Sorted (keyLe key) →
      l2.Sorted (keyLe key) → (l1.map key).Nodup → l1 = l2 := by
  intro l1
  induction l1 with
  | nil => intro l2 hp _ _ _; exact (List.Perm.eq_nil hp.symm).symm
  | cons a t1 ih =>
      intro l2 hp h1 h2 hnd
      cases l2 with
      | nil => exact (List.cons_ne_nil a t1 hp.eq_nil).elim
      | cons b t2 =>
          rw [List.sorted_cons] at h1 h2
          rw [List.map_cons, List.nodup_cons] at hnd
          have hab : a = b := by
            by_contra hne
            have hamem : a ∈ b :: t2 := hp.subset (List.mem_cons_self a t1)
            rw [List.mem_cons] at hamem
            rcases hamem with h | h
            · exact hne h
            · have hbmem : b ∈ a :: t1 := hp.symm.subset (List.mem_cons_self b t2)
              rw [List.mem_cons] at hbmem
              rcases hbmem with h' | h'
              · exact hne h'.symm
              · have hk : key a = key b :=
                  string_data_eq (le_antisymm (h1.1 b h') (h2.1 a h))
                exact hnd.1 (by rw [hk]; exact List.mem_map_of_mem key h')
          subst hab
          rw [ih t2 hp.cons_inv h1.2 h2.2 hnd.2]

/-- Sorting is invariant under permutation when the keys are
duplicate-free. -/
theorem sortByKey_eq_of_perm (key : α → String) {l1 l2 : List α}
    (hp : l1.Perm l2) (hnd : (l1.map key).Nodup) :
    sortByKey key l1 = sortByKey key l2 :=
  sorted_perm_nodupkeys_eq key _ _
    ((sortByKey_perm key l1).trans (hp.trans (sortByKey_perm key l2).symm))
    (sortByKey_sorted key l1) (sortByKey_sorted key l2)
    (((sortByKey_perm key l1).map key).nodup_iff.mpr hnd)

/-- Success of the struct-expansion recursion is monotone in the fuel, with
the same result. -/
theorem addSchemasAux_mono (fd : FileDesc) :
    ∀ (fuel : Nat) (st : GenState) (d : OADocument) (l : List StructDesc) r,
      addSchemasAux fd fuel st d l = some r →
      addSchemasAux fd (fuel + 1) st d l = some r := by
  intro fuel
  induction fuel with
  | zero =>
      intro st d l r h
      rw [addSchemasAux] at h
      exact Option.noConfusion h
  | succ n ih =>
      intro st d l r h
      cases l with
      | nil =>
          rw [addSchemasAux] at h ⊢
          exact h
      | cons s rest =>
          rw [addSchemasAux] at h ⊢
          cases hinner : (if (structFieldStructs fd s).isEmpty then
              some (st, d)
            else addSchemasAux fd n st d (structFieldStructs fd s)) with
          | none => rw [hinner] at h; exact Option.noConfusion h
          | some p =>
              have hinner1 : (if (structFieldStructs fd s).isEmpty then
                  some (st, d)
                else addSchemasAux fd (n + 1) st d (structFieldStructs fd s)) =
                  some p := by
                by_cases hempty : (structFieldStructs fd s).isEmpty
                · rw [if_pos hempty] at hinner ⊢; exact hinner
                · rw [if_neg hempty] at hinner ⊢
                  exact ih st d (structFieldStructs fd s) p hinner
              rw [hinner] at h
              rw [hinner1]
              obtain ⟨st1, d1⟩ := p
              dsimp only at h ⊢
              by_cases hc : ¬ st1.requiredSchemas.contains s.name ∨
                  st1.generatedSchemas.contains s.name
              · rw [if_pos hc] at h ⊢
                exact ih st1 d1 rest r h
              · rw [if_neg hc] at h ⊢
                rcases hb : addSchemaForStruct fd st1 d1 s with ⟨st3, d2⟩
                rw [hb] at h
                exact ih _ _ rest r h

/-- Success of the worklist loop is monotone in the fuel, with the same
result. -/
theorem buildDocumentLoop_mono (fd : FileDesc) :
    ∀ (fuel : Nat) (st : GenState) (d : OADocument) r,
      buildDocumentLoop fd fuel st d = some r →
      buildDocumentLoop fd (fuel + 1) st d = some r := by
  intro fuel
  induction fuel with
  | zero =>
      intro st d r h
      rw [buildDocumentLoop] at h
      exact Option.noConfusion h
  | succ n ih =>
      intro st d r h
      rw [buildDocumentLoop] at h ⊢
      by_cases hempty : st.requiredSchemas.isEmpty
      · rw [if_pos hempty] at h ⊢; exact h
      · rw [if_neg hempty] at h ⊢
        cases hinner : addSchemasAux fd n st d fd.structs with
        | none => rw [hinner] at h; exact Option.noConfusion h
        | some p =>
            rw [hinner] at h
            rw [addSchemasAux_mono fd n st d fd.structs p hinner]
            obtain ⟨st1, d1⟩ := p
            exact ih _ d1 r h

/-- Success of the worklist loop at any larger fuel, with the same
result. -/
theorem buildDocumentLoop_mono_le (fd : FileDesc) :
    ∀ (f f' : Nat), f ≤ f' →
      ∀ (st : GenState) (d : OADocument) r,
        buildDocumentLoop fd f st d = some r →
        buildDocumentLoop fd f' st d = some r := by
  intro f f' hle
  induction hle with
  | refl => intro st d r h; exact h
  | step _ ih =>
      intro st d r h
      exact buildDocumentLoop_mono fd _ st d r (ih st d r h)

/-- C6 counterexample: the converter's output is NOT a function of the
input document alone — two iteration orders of the same (two-element)
responses map of one operation yield different proto3 text, because the
response-wrapper loop breaks at the first content-less response it
happens to see. -/
theorem conversion_determinism_counterexample :
    (opC6a.responses.getD []).Perm (opC6b.responses.getD []) ∧
    pipelineA (fun _ => "") "p" specC6a ≠ pipelineA (fun _ => "") "p" specC6b :=
  ⟨List.Perm.swap _ _ _,
   fun h =>
     absurd (congrArg (fun e => (Except.toOption e).getD "") h) (by decide)⟩

/-- C6 (amended): determinism holds exactly where the code imposes an order
of its own, and fails end to end.  For the proto3 direction the §4.4 sorts
cancel every list order they govern: `ConvertToProtoFile` output is
invariant under (1) permuting the message list and (2) permuting the
service list (duplicate-free names, other sections equal), each service
block under (3) permuting its method list, each message block under (4)
permuting its field list (sequential numbering included), and a map-valued
option block under (5) permuting its entries (duplicate-free keys).  (6) In
the `BuildDocument` direction the schema-expansion worklist is
deterministic: any two terminating runs — any two fuel bounds of the
embedding — produce the same state and document.  The original end-to-end
claim is refuted by the counterexample: the converter consumes map
iteration orders that the sorts do not cancel. -/
theorem deterministic_render_amended :
    (∀ (pf1 pf2 : ProtoFile),
      pf1.packageName = pf2.packageName →
      pf1.imports = pf2.imports →
      pf1.options = pf2.options →
      pf1.services = pf2.services →
      pf1.messages.Perm pf2.messages →
      (pf1.messages.map ProtoMessage.name).Nodup →
      ConvertToProtoFile pf1 = ConvertToProtoFile pf2) ∧
    (∀ (pf1 pf2 : ProtoFile),
      pf1.packageName = pf2.packageName →
      pf1.imports = pf2.imports →
      pf1.options = pf2.options →
      pf1.messages = pf2.messages →
      pf1.services.Perm pf2.services →
      (pf1.services.map ProtoService.name).Nodup →
      ConvertToProtoFile pf1 = ConvertToProtoFile pf2) ∧
    (∀ (nm : String) (ms1 ms2 : List ProtoMethod),
      ms1.Perm ms2 → (ms1.map ProtoMethod.name).Nodup →
      encodeService { name := nm, methods := ms1 } =
        encodeService { name := nm, methods := ms2 }) ∧
    (∀ (nm : String) (fs1 fs2 : List ProtoField) (ms : List ProtoMessage)
        (es : List ProtoEnum) (os : List ProtoOption) (lvl : Nat),
      fs1.Perm fs2 → (fs1.map ProtoField.name).Nodup →
      encodeMessage (.mk nm fs1 ms es os) lvl =
        encodeMessage (.mk nm fs2 ms es os) lvl) ∧
    (∀ (e1 e2 : List (String × String)) (ind : Nat),
      e1.Perm e2 → (e1.map Prod.fst).Nodup →
      encodeFieldOptionMap e1 ind = encodeFieldOptionMap e2 ind) ∧
    (∀ (fd : FileDesc) (f1 f2 : Nat) (st : GenState) (d : OADocument)
        (r1 r2 : GenState × OADocument),
      buildDocumentLoop fd f1 st d = some r1 →
      buildDocumentLoop fd f2 st d = some r2 → r1 = r2) := by
  refine ⟨?_, ?_, ?_, ?_, ?_, ?_⟩
  · intro pf1 pf2 hpack himp hopt hsvc hmsg hnodup
    simp only [ConvertToProtoFile]
    rw [hpack, himp, hopt, hsvc,
      sortByKey_eq_of_perm ProtoMessage.name hmsg hnodup]
  · intro pf1 pf2 hpack himp hopt hmsg hsvc hnodup
    simp only [ConvertToProtoFile]
    rw [hpack, himp, hopt, hmsg,
      sortByKey_eq_of_perm ProtoService.name hsvc hnodup]
  · intro nm ms1 ms2 hp hnd
    simp only [encodeService]
    rw [sortByKey_eq_of_perm ProtoMethod.name hp hnd]
  · intro nm fs1 fs2 ms es os lvl hp hnd
    rw [encodeMessage, encodeMessage,
      sortByKey_eq_of_perm ProtoField.name hp hnd]
  · intro e1 e2 ind hp hnd
    simp only [encodeFieldOptionMap]
    rw [sortByKey_eq_of_perm Prod.fst hp hnd]
  · intro fd f1 f2 st d r1 r2 h1 h2
    have e1 := buildDocumentLoop_mono_le fd f1 (max f1 f2)
      (Nat.le_max_left f1 f2) st d r1 h1
    have e2 := buildDocumentLoop_mono_le fd f2 (max f1 f2)
      (Nat.le_max_right f1 f2) st d r2 h2
    rw [e1] at e2
    exact Option.some.inj e2

/-- C6 amended witness: concrete swaps for each sorted section render
identically, and two worklist runs with different budgets agree. -/
theorem deterministic_render_amended_witness :
    (ConvertToProtoFile pfW1 = ConvertToProtoFile pfW2) ∧
    (ConvertToProtoFile pfS1 = ConvertToProtoFile pfS2) ∧
    (encodeService { name := "S", methods := [methB, methA] } =
      encodeService { name := "S", methods := [methA, methB] }) ∧
    (encodeMessage (.mk "M" [fldB, fldA] [] [] []) 0 =
      encodeMessage (.mk "M" [fldA, fldB] [] [] []) 0) ∧
    (encodeFieldOptionMap [("b", "1"), ("a", "2")] 6 =
      encodeFieldOptionMap [("a", "2"), ("b", "1")] 6) ∧
    (buildDocumentLoop fdW 3 stW dW = buildDocumentLoop fdW 8 stW dW) :=
  ⟨deterministic_render_amended.1 pfW1 pfW2 rfl rfl rfl rfl
      (List.Perm.swap mC6a mC6b []) (by decide),
   deterministic_render_amended.2.1 pfS1 pfS2 rfl rfl rfl rfl
      (List.Perm.swap svcA svcB []) (by decide),
   deterministic_render_amended.2.2.1 "S" [methB, methA] [methA, methB]
      (List.Perm.swap methA methB []) (by decide),
   deterministic_render_amended.2.2.2.1 "M" [fldB, fldA] [fldA, fldB] [] [] [] 0
      (List.Perm.swap fldA fldB []) (by decide),
   deterministic_render_amended.2.2.2.2.1 [("b", "1"), ("a", "2")]
      [("a", "2"), ("b", "1")] 6
      (List.Perm.swap ("a", "2") ("b", "1") []) (by decide),
   by
     have h1 : buildDocumentLoop fdW 3 stW dW = some rW := rfl
     have h2 : buildDocumentLoop fdW 8 stW dW = some rW := rfl
     rw [h1, h2,
       deterministic_render_amended.2.2.2.2.2 fdW 3 8 stW dW rW rW h1 h2]⟩

end SwaggerGen
